import Mathlib

/-!
# Verification of the LaTeX-Workshop structure-construction pipeline

Shallow embedding of `src/providers/structurelib/latex.ts`: the outline
(structure) construction pipeline of the LaTeX-Workshop VS Code extension.

External collaborators (the VS Code workspace configuration, the file
cacher / parser, path resolution utilities, and the legacy Rnw child-chunk
regular-expression scanner) are modelled as an explicit environment record
`Env`; the pipeline itself is translated function by function.

JavaScript runtime errors (`TypeError` on property access of `undefined`,
`RangeError` on `String.prototype.repeat` with a negative count) are
modelled with `Except`; the unbounded recursion of `constructFile` is
modelled with a fuel parameter whose exhaustion is the distinguished
error `PErr.fuel`.
-/

namespace LatexOutline

/-- Error type of the embedded pipeline: either fuel exhaustion of the
(not obviously terminating) recursion through included files, or a thrown
JavaScript error with its message. -/
inductive PErr where
  | fuel : PErr
  | js : String → PErr
deriving DecidableEq, Repr

/-- Source: `TeXElementType` from `src/providers/structure.ts` (only the variants
consumed by the LaTeX structuring module). -/
inductive TeXElementType where
  | Section : TeXElementType
  | SectionAst : TeXElementType
  | Environment : TeXElementType
  | Command : TeXElementType
  | SubFile : TeXElementType
deriving DecidableEq, Repr

/-- Source: `TeXElement` from `src/providers/structure.ts`: one node of the outline. -/
inductive TeXElement where
  | mk (type : TeXElementType) (name : String) (label : String)
       (index : Nat) (lineFr : Nat) (lineTo : Nat)
       (filePath : String) (children : List TeXElement) : TeXElement
deriving Repr

mutual

def decEqTeXElement : (a b : TeXElement) → Decidable (a = b)
  | .mk t n l i f g p c, .mk t' n' l' i' f' g' p' c' =>
    have : Decidable (c = c') := decEqTeXElementList c c'
    decidable_of_iff
      (t = t' ∧ n = n' ∧ l = l' ∧ i = i' ∧ f = f' ∧ g = g' ∧ p = p' ∧ c = c')
      (TeXElement.mk.injEq t n l i f g p c t' n' l' i' f' g' p' c').symm.to_iff

def decEqTeXElementList : (a b : List TeXElement) → Decidable (a = b)
  | [], [] => isTrue rfl
  | a :: as, b :: bs =>
    have : Decidable (a = b) := decEqTeXElement a b
    have : Decidable (as = bs) := decEqTeXElementList as bs
    decidable_of_iff (a = b ∧ as = bs) (List.cons.injEq a as b bs).symm.to_iff
  | [], _ :: _ => isFalse (by simp)
  | _ :: _, [] => isFalse (by simp)

end

instance : DecidableEq TeXElement := decEqTeXElement
instance : DecidableEq (List TeXElement) := decEqTeXElementList

namespace TeXElement

def type : TeXElement → TeXElementType
  | mk t _ _ _ _ _ _ _ => t

def name : TeXElement → String
  | mk _ n _ _ _ _ _ _ => n

def label : TeXElement → String
  | mk _ _ l _ _ _ _ _ => l

def index : TeXElement → Nat
  | mk _ _ _ i _ _ _ _ => i

def lineFr : TeXElement → Nat
  | mk _ _ _ _ f _ _ _ => f

def lineTo : TeXElement → Nat
  | mk _ _ _ _ _ t _ _ => t

def filePath : TeXElement → String
  | mk _ _ _ _ _ _ p _ => p

def children : TeXElement → List TeXElement
  | mk _ _ _ _ _ _ _ c => c

/-- Replace the children list (models in-place mutation of `.children`). -/
def withChildren : TeXElement → List TeXElement → TeXElement
  | mk t n l i f g p _, c => mk t n l i f g p c

@[simp] theorem type_mk (t n l i f g p c) : (mk t n l i f g p c).type = t := rfl
@[simp] theorem name_mk (t n l i f g p c) : (mk t n l i f g p c).name = n := rfl
@[simp] theorem label_mk (t n l i f g p c) : (mk t n l i f g p c).label = l := rfl
@[simp] theorem children_mk (t n l i f g p c) : (mk t n l i f g p c).children = c := rfl
@[simp] theorem withChildren_mk (t n l i f g p c c') :
    (mk t n l i f g p c).withChildren c' = mk t n l i f g p c' := rfl

end TeXElement

instance {e : Type} {a : Type} [DecidableEq e] [DecidableEq a] : DecidableEq (Except e a)
  | .ok x, .ok y => decidable_of_iff (x = y) (by simp)
  | .error x, .error y => decidable_of_iff (x = y) (by simp)
  | .ok _, .error _ => isFalse (by simp)
  | .error _, .ok _ => isFalse (by simp)

/-- The children-free core of a `TeXElement`; used to state preservation
and numbering properties about trees whose `children` structure changes. -/
structure ElemCore where
  type : TeXElementType
  name : String
  label : String
  index : Nat
  lineFr : Nat
  lineTo : Nat
  filePath : String
deriving DecidableEq, Repr

/-- Strip the children of an element. -/
def TeXElement.core : TeXElement → ElemCore
  | .mk t n l i f g p _ => ⟨t, n, l, i, f, g, p⟩

mutual

/-- Depth-first (preorder) flattening of one element. -/
def flattenE : TeXElement → List ElemCore
  | .mk t n l i f g p c => ⟨t, n, l, i, f, g, p⟩ :: flattenL c

/-- Depth-first (preorder) flattening of a forest. -/
def flattenL : List TeXElement → List ElemCore
  | [] => []
  | e :: rest => flattenE e ++ flattenL rest

end

@[simp] theorem flattenL_nil : flattenL [] = [] := rfl

@[simp] theorem flattenL_cons (e : TeXElement) (rest : List TeXElement) :
    flattenL (e :: rest) = flattenE e ++ flattenL rest := by
  rw [flattenL]

@[simp] theorem flattenE_mk (t n l i f g p c) :
    flattenE (.mk t n l i f g p c) = ⟨t, n, l, i, f, g, p⟩ :: flattenL c := by
  rw [flattenE]

theorem flattenL_append (a b : List TeXElement) :
    flattenL (a ++ b) = flattenL a ++ flattenL b := by
  induction a with
  | nil => simp
  | cons e rest ih => simp [ih]

/-!
## The unified-latex AST

A faithful model of the `@unified-latex/unified-latex-types` node shapes
that `latex.ts` consumes.  `other` stands for every node kind that the
module's `switch` statements do not name (hitting their `default` cases).
The `macroN` constructor models `Ast.Macro` (`type: 'macro'`); its
`content` field in the source is the macro *name* (a string), so the AST
walk does not recurse into it.
-/

/-- Source: `node.position.start/.end`: `offset` and 1-based `line` values. -/
structure AstPosition where
  startOffset : Nat
  startLine : Nat
  endLine : Nat
deriving DecidableEq, Repr

mutual

inductive AstNode where
  | str (content : String) (pos : Option AstPosition)
  | whitespace (pos : Option AstPosition)
  | parbreak (pos : Option AstPosition)
  | comment (content : String) (pos : Option AstPosition)
  | macroN (name : String) (args : Option (List AstArg)) (pos : Option AstPosition)
  | environment (env : String) (args : Option (List AstArg))
      (content : List AstNode) (pos : Option AstPosition)
  | verbatim (env : String) (content : String) (pos : Option AstPosition)
  | mathenv (env : String) (content : List AstNode) (pos : Option AstPosition)
  | inlinemath (content : List AstNode) (pos : Option AstPosition)
  | displaymath (content : List AstNode) (pos : Option AstPosition)
  | group (content : List AstNode) (pos : Option AstPosition)
  | verb (content : String) (pos : Option AstPosition)
  | other (pos : Option AstPosition)

/-- An argument of a macro or environment: `openMark`/`closeMark` plus content. -/
inductive AstArg where
  | mk (openMark : String) (closeMark : String) (content : List AstNode)

end

def AstArg.openMark : AstArg → String
  | .mk o _ _ => o

def AstArg.closeMark : AstArg → String
  | .mk _ c _ => c

def AstArg.content : AstArg → List AstNode
  | .mk _ _ c => c

@[simp] theorem AstArg.openMark_mk (o c l) : (AstArg.mk o c l).openMark = o := rfl
@[simp] theorem AstArg.closeMark_mk (o c l) : (AstArg.mk o c l).closeMark = c := rfl
@[simp] theorem AstArg.content_mk (o c l) : (AstArg.mk o c l).content = l := rfl

/-- The position record of a node (`node.position`). -/
def AstNode.pos : AstNode → Option AstPosition
  | .str _ p | .whitespace p | .parbreak p | .comment _ p | .macroN _ _ p
  | .environment _ _ _ p | .verbatim _ _ p | .mathenv _ _ p | .inlinemath _ p
  | .displaymath _ p | .group _ p | .verb _ p | .other p => p

/-- Source: `'content' in node && typeof node.content !== 'string'` — the node kinds
whose `content` is a list of nodes, into which `parseNode` recurses
(line 272 of `latex.ts`). -/
def AstNode.listContent : AstNode → Option (List AstNode)
  | .environment _ _ c _ | .mathenv _ c _ | .inlinemath c _
  | .displaymath c _ | .group c _ => some c
  | _ => none

/-!
## External collaborators and configuration

`StructureConfig` is the record built by `refreshLaTeXModelConfig`.
`Env` gathers every external collaborator the module reads: the ambient
root file, the content/AST source (the net result of the cacher lookup,
the bounded wait with forced refresh, and the dirty-editor override,
which the spec designates as an external boundary), path utilities,
the configuration snapshot, and the legacy Rnw child-directive scanner
(`InputFileRegExp.execChild`, defined outside this module).
-/

/-- Source: `StructureConfig` from `latex.ts` (`secIndex` as an association list;
`lookup` finds the most recent assignment first). -/
structure StructureConfig where
  cmds : List String
  envs : List String
  secs : List String
  secIndex : List (String × Nat)
  texDirs : List String
  subFile : Bool
deriving DecidableEq, Repr

/-- Source: `config.secIndex[name]` — `none` models the JS `undefined`. -/
def StructureConfig.rank (cfg : StructureConfig) (name : String) : Option Nat :=
  cfg.secIndex.lookup name

/-- One successive match produced by `InputFileRegExp.execChild`:
`result.path` (resolved file), `result.match.path` (raw path text) and
`result.match.index` (character offset of the match in the content). -/
structure RnwMatch where
  path : String
  matchPath : String
  index : Nat
deriving DecidableEq, Repr

/-- One entry of the legacy child-directive queue built by
`parseRnwChildCommand`. -/
structure RnwEntry where
  subFile : String
  path : String
  line : Nat
deriving DecidableEq, Repr

/-- What the content/AST source yields for one file path; `ast` is the
`content` list of the parsed `Ast.Root`.  A `content` of `none` (or the
empty string, which is falsy in JS) and an `ast` of `none` are treated as
unavailable by `constructFile`. -/
structure SourceEntry where
  content : Option String
  ast : Option (List AstNode)

/-- The external collaborators of the structuring module. -/
structure Env where
  /-- Source: `lw.manager.rootFile` -/
  rootFile : Option String
  /-- net result of content/AST acquisition for a path (cacher lookup after
  the bounded wait and forced refresh, or the dirty-editor override) -/
  files : String → Option SourceEntry
  /-- Source: `resolveFile` from `utils/utils` -/
  resolve : List String → String → Option String
  /-- Source: `path.dirname` -/
  dirname : String → String
  /-- Source: `path.join` -/
  joinPath : String → String → String
  /-- configuration `view.outline.commands` -/
  outlineCommands : List String
  /-- configuration `view.outline.floats.enabled` -/
  floatsEnabled : Bool
  /-- configuration `view.outline.floats.caption.enabled` -/
  captionEnabled : Bool
  /-- configuration `view.outline.floats.number.enabled` -/
  floatsNumberEnabled : Bool
  /-- configuration `view.outline.numbers.enabled` -/
  numbersEnabled : Bool
  /-- configuration `view.outline.sections` -/
  outlineSections : List String
  /-- configuration `latex.texDirs` -/
  texDirs : List String
  /-- the successive matches `InputFileRegExp.execChild` yields on
  (content, file, rootFile), in scan order -/
  execChild : String → String → String → List RnwMatch

/-- The grouping behind JS `String.prototype.split` with a one-character
separator, on character lists (`''.split(c) = ['']`). -/
def splitCharList (sep : Char) : List Char → List (List Char)
  | [] => [[]]
  | c :: cs =>
    let r := splitCharList sep cs
    if c = sep then [] :: r
    else
      match r with
      | [] => [[c]]
      | g :: gs => (c :: g) :: gs

/-- JS `s.split(sep)` for a one-character separator. -/
def jsSplitChar (sep : Char) (s : String) : List String :=
  (splitCharList sep s.data).map String.mk

/-- JS `parts.join(sep)` for a one-character separator. -/
def jsJoinChar (sep : Char) : List String → String
  | [] => ""
  | [p] => p
  | p :: rest => p ++ String.mk [sep] ++ jsJoinChar sep rest

/-- Source: `refreshLaTeXModelConfig` from `latex.ts` (`defaultFloats = ['frame']`).
The JS `forEach` assignment `secIndex[cmd] = index` overwrites earlier
assignments, so the association list is reversed to make `lookup` find the
last write. -/
def refreshLaTeXModelConfig (env : Env) (subFile : Bool) : StructureConfig :=
  let cmds := env.outlineCommands
  let envs := if env.floatsEnabled then ["figure", "table", "frame"] else ["frame"]
  let hierarchy := env.outlineSections
  { cmds := cmds
    envs := envs
    secs := (hierarchy.map (fun sec => jsSplitChar '|' sec)).flatten
    secIndex :=
      (hierarchy.enum.map
        (fun p => (jsSplitChar '|' p.2).map (fun cmd => (cmd, p.1)))).flatten.reverse
    texDirs := env.texDirs
    subFile := subFile }

/-- Number of newline characters among the first `idx` characters of
`content` — `(content.slice(0, result.match.index).match(/\n/g) || []).length`. -/
def countNewlines (content : String) (idx : Nat) : Nat :=
  ((content.toList.take idx).filter (fun c => c = '\n')).length

/-- Source: `parseRnwChildCommand` from `latex.ts` ("old structuring"): run the
external scanner over the raw content and record, per match, the resolved
sub-file, the raw path and the 0-based line of the match. -/
def parseRnwChildCommand (env : Env) (content file rootFile : String) : List RnwEntry :=
  (env.execChild content file rootFile).map
    (fun m => { subFile := m.path, path := m.matchPath, line := countNewlines content m.index })

/-!
## Node renderer

`macroToStr`, `envToStr` and `argContentToStr` from `latex.ts`.
`argContentToStr` maps each node of the list and joins the results, which
is rendered here as a direct recursion concatenating left to right.
-/

/-- Source: `envToStr`: a nested (verbatim/math) environment renders as the fixed
placeholder and its body is never rendered. -/
def envToStr (env : String) : String :=
  "\\environment\x7b" ++ env ++ "\x7d"

/-- The JS coercion `(x as Ast.String | undefined)?.content || ''` applied
to an arbitrary node in the `texorpdfstring` branch of `macroToStr`: node
kinds whose `content` property is a string yield that string; kinds with
no `content` property yield `''` (because `undefined || '' === ''`).  For
the kinds whose `content` is a node array, JS would leak the array object
into the surrounding string context (a type confusion in the source); no
behaviour verified here depends on that corner and it is modelled as the
empty string. -/
def jsContentString : AstNode → String
  | .str c _ => c
  | .macroN name _ _ => name
  | .comment c _ => c
  | .verb c _ => c
  | .verbatim _ c _ => c
  | _ => ""

mutual

/-- Source: `macroToStr`: the `texorpdfstring` alternate-text macro renders as its
second argument's first content node; any other macro renders as
`\name` followed by its delimited, recursively rendered arguments
(`macro.args?.map(arg => openMark + argContentToStr(arg.content) + closeMark).join('') ?? ''`).
In `(macro.args?.[1].content[0] as Ast.String | undefined)?.content || ''`
the optional chain only guards `args` being nullish, so an args list
shorter than two throws a `TypeError`. -/
def macroToStr (name : String) (args : Option (List AstArg)) : Except PErr String :=
  if name = "texorpdfstring" then
    match args with
    | none => .ok ""
    | some l =>
      match l.get? 1 with
      | none => .error (.js "TypeError: Cannot read properties of undefined (reading content)")
      | some a =>
        match a.content.get? 0 with
        | none => .ok ""
        | some n => .ok (jsContentString n)
  else
    match args with
    | none => .ok ("\\" ++ name)
    | some l => do
      let s ← argsListToStr l
      pure ("\\" ++ name ++ s)

/-- Source: `args.map(arg => openMark + argContentToStr(arg.content) + closeMark).join('')`. -/
def argsListToStr : List AstArg → Except PErr String
  | [] => .ok ""
  | AstArg.mk o c l :: rest => do
    let s ← argContentToStr l
    let r ← argsListToStr rest
    pure (o ++ s ++ c ++ r)

/-- Source: `argContentToStr`: map every node to its fragment and join. -/
def argContentToStr : List AstNode → Except PErr String
  | [] => .ok ""
  | n :: rest => do
    let s ← nodeToStr n
    let r ← argContentToStr rest
    pure (s ++ r)

/-- The per-node `switch` inside `argContentToStr`. -/
def nodeToStr : AstNode → Except PErr String
  | .str c _ => .ok c
  | .whitespace _ => .ok " "
  | .parbreak _ => .ok " "
  | .comment _ _ => .ok " "
  | .macroN name args _ => macroToStr name args
  | .environment e _ _ _ => .ok (envToStr e)
  | .verbatim e _ _ => .ok (envToStr e)
  | .mathenv e _ _ => .ok (envToStr e)
  | .inlinemath c _ => do
    let s ← argContentToStr c
    pure ("$" ++ s ++ "$")
  | .displaymath c _ => do
    let s ← argContentToStr c
    pure ("\\[" ++ s ++ "\\]")
  | .group c _ => argContentToStr c
  | .verb c _ => .ok c
  | .other _ => .ok ""

end

/-!
## Per-file extraction

`constructFile` and `parseNode` from `latex.ts`.  The in-place mutations of
the source (the shared `structs` cache, the `rnwSub` queue consumed by
`pop`, and `root.children.push`) are threaded explicitly: `parseNode`
returns the list of elements it appends to the current root, the remaining
queue, and the updated cache.  The recursion through included files is not
structurally decreasing (and indeed does not terminate on cyclic inclusion
graphs), so the functions are step-indexed: every recursive call burns one
unit of fuel, and `PErr.fuel` reports exhaustion.  An execution of the
source terminates on an input exactly when some fuel value suffices here.
-/

/-- Source: `env.charAt(0).toUpperCase() + env.slice(1)` (ASCII names). -/
def capitalizeFirst (s : String) : String :=
  match s.toList with
  | [] => ""
  | c :: cs => String.mk (c.toUpper :: cs)

/-- JS string indexing `s[0]`: the first character, or `undefined`. -/
def jsCharAt (s : String) : Option String :=
  match s.toList with
  | [] => none
  | c :: _ => some (String.mk [c])

/-- The DocTeX caption of `\begin{macro}`/`\begin{environment}` blocks:
`(node.content[0] as Ast.Group | undefined)?.content[0]` followed by the
template coercion `` `: ${caption}` ``.  The unchecked casts make JS index
into whatever `content` the first node has: a node array yields a node
object (which stringifies as `[object Object]`), a string yields its first
character, and a node without a `content` property (whitespace, parbreak)
throws a `TypeError` on `undefined[0]`. -/
def docTexCaption : List AstNode → Except PErr (Option String)
  | [] => .ok none
  | n :: _ =>
    match n with
    | .group l _ => .ok ((l.get? 0).map (fun _ => "[object Object]"))
    | .environment _ _ l _ => .ok ((l.get? 0).map (fun _ => "[object Object]"))
    | .mathenv _ l _ => .ok ((l.get? 0).map (fun _ => "[object Object]"))
    | .inlinemath l _ => .ok ((l.get? 0).map (fun _ => "[object Object]"))
    | .displaymath l _ => .ok ((l.get? 0).map (fun _ => "[object Object]"))
    | .str s _ => .ok (jsCharAt s)
    | .macroN name _ _ => .ok (jsCharAt name)
    | .comment c _ => .ok (jsCharAt c)
    | .verb c _ => .ok (jsCharAt c)
    | .verbatim _ c _ => .ok (jsCharAt c)
    | .whitespace _ => .error (.js "TypeError: Cannot read properties of undefined (reading 0)")
    | .parbreak _ => .error (.js "TypeError: Cannot read properties of undefined (reading 0)")
    | .other _ => .error (.js "TypeError: Cannot read properties of undefined (reading 0)")

/-- The per-run `FileStructureCache`, newest entry first. -/
abbrev Cache := List (String × List TeXElement)

/-- Source: `structs[filePath] = children`. -/
def cacheInsert (c : Cache) (k : String) (v : List TeXElement) : Cache :=
  (k, v) :: c

/-- The `attributes` record shared by every branch of `parseNode`
(line 145): source offset and 0-based start/end lines. -/
structure NodeAttrs where
  index : Nat
  lineFr : Nat
  lineTo : Nat
deriving DecidableEq, Repr

def nodeAttrs (node : AstNode) : NodeAttrs :=
  { index := ((node.pos.map (fun p => p.startOffset)).getD 0)
    lineFr := ((node.pos.map (fun p => p.startLine)).getD 1) - 1
    lineTo := ((node.pos.map (fun p => p.endLine)).getD 1) - 1 }

/-- Source: `node.args?.[i]?.content || []` (with short-circuiting to `[]`). -/
def argContentAt (args : Option (List AstArg)) (i : Nat) : List AstNode :=
  (((args.bind (fun l => l.get? i)).map (fun a => a.content))).getD []

theorem AstNode.sizeOf_listContent {n : AstNode} {c : List AstNode}
    (h : n.listContent = some c) : sizeOf c < sizeOf n := by
  cases n <;> simp only [AstNode.listContent, Option.some.injEq, reduceCtorEq] at h <;>
    first
      | exact absurd h (by simp)
      | (subst h; simp; omega)

mutual

/-- Lines 151–250 of `latex.ts`: classify one node into at most one
structural element.  For the inclusion branches, a resolvable path
produces a `SubFile` element and (when `config.subFile`) recursively
extracts the target file; an unresolvable path silently produces nothing. -/
def classifyNodeF : Nat → Env → StructureConfig → String → AstNode → Cache →
    Except PErr (Option TeXElement × Cache)
  | 0, _, _, _, _, _ => .error .fuel
  | fuel + 1, env, cfg, filePath, node, structs =>
  let attrs := nodeAttrs node
  match node with
  | .macroN name args _ =>
    if cfg.secs.contains name then do
      let starred := !(((args.bind (fun l => l.get? 0)).map (fun a => a.content)).getD []).isEmpty
      let arg1 := (args.bind (fun l => l.get? 1)).map (fun a => a.content)
      let labelArg := if (arg1.getD []).length > 0 then arg1.getD [] else argContentAt args 2
      let label ← argContentToStr labelArg
      pure (some (.mk (if starred then .SectionAst else .Section) name label
        attrs.index attrs.lineFr attrs.lineTo filePath []), structs)
    else if cfg.cmds.contains name then do
      let argStr ← argContentToStr (argContentAt args 1)
      let label := "#" ++ name ++ (if argStr ≠ "" then ": " ++ argStr else "")
      pure (some (.mk .Command name label attrs.index attrs.lineFr attrs.lineTo filePath []),
        structs)
    else if ["input", "InputIfFileExists", "include", "SweaveInput", "subfile",
        "loadglsentries", "markdownInput"].contains name then do
      let arg0 ← argContentToStr (argContentAt args 0)
      match env.resolve
          ([env.dirname filePath, env.dirname (env.rootFile.getD "")] ++ cfg.texDirs) arg0 with
      | none => pure (none, structs)
      | some sub =>
        let el := TeXElement.mk .SubFile name (if cfg.subFile then sub else arg0)
          attrs.index attrs.lineFr attrs.lineTo filePath []
        if cfg.subFile then do
          let structs' ← constructFileF fuel env cfg sub structs
          pure (some el, structs')
        else pure (some el, structs)
    else if ["import", "inputfrom", "includefrom"].contains name then do
      let arg0 ← argContentToStr (argContentAt args 0)
      let arg1 ← argContentToStr (argContentAt args 1)
      match env.resolve [arg0, env.joinPath (env.dirname (env.rootFile.getD "")) arg0] arg1 with
      | none => pure (none, structs)
      | some sub =>
        let el := TeXElement.mk .SubFile name (if cfg.subFile then sub else arg1)
          attrs.index attrs.lineFr attrs.lineTo filePath []
        if cfg.subFile then do
          let structs' ← constructFileF fuel env cfg sub structs
          pure (some el, structs')
        else pure (some el, structs)
    else if ["subimport", "subinputfrom", "subincludefrom"].contains name then do
      let arg0 ← argContentToStr (argContentAt args 0)
      let arg1 ← argContentToStr (argContentAt args 1)
      match env.resolve [env.dirname filePath] (env.joinPath arg0 arg1) with
      | none => pure (none, structs)
      | some sub =>
        let el := TeXElement.mk .SubFile name (if cfg.subFile then sub else arg1)
          attrs.index attrs.lineFr attrs.lineTo filePath []
        if cfg.subFile then do
          let structs' ← constructFileF fuel env cfg sub structs
          pure (some el, structs')
        else pure (some el, structs)
    else pure (none, structs)
  | .environment envName args content _ =>
    if envName = "frame" then do
      let frameTitle := content.find? (fun sub =>
        match sub with | .macroN n _ _ => n = "frametitle" | _ => false)
      let cap3 ← argContentToStr (argContentAt args 3)
      let caption ← if cap3 ≠ "" then pure cap3 else
        argContentToStr (match frameTitle with
          | some (.macroN _ fargs _) => argContentAt fargs 2
          | _ => [])
      let label := capitalizeFirst envName ++
        (if env.captionEnabled ∧ caption ≠ "" then ": " ++ caption else "")
      pure (some (.mk .Environment envName label attrs.index attrs.lineFr attrs.lineTo
        filePath []), structs)
    else if (envName = "figure" ∨ envName = "figure*") ∧ cfg.envs.contains "figure" ∨
        (envName = "table" ∨ envName = "table*") ∧ cfg.envs.contains "table" then do
      let captionMacro := content.find? (fun sub =>
        match sub with | .macroN n _ _ => n = "caption" | _ => false)
      let caption ← argContentToStr (match captionMacro with
        | some (.macroN _ cargs _) => argContentAt cargs 1
        | _ => [])
      let envName' := if envName.endsWith "*" then envName.dropRight 1 else envName
      let label := capitalizeFirst envName' ++
        (if env.captionEnabled ∧ caption ≠ "" then ": " ++ caption else "")
      pure (some (.mk .Environment envName' label attrs.index attrs.lineFr attrs.lineTo
        filePath []), structs)
    else if envName = "macro" ∨ envName = "environment" then do
      let caption ← docTexCaption content
      let label := capitalizeFirst envName ++
        (match caption with
          | some cap => if env.captionEnabled then ": " ++ cap else ""
          | none => "")
      pure (some (.mk .Environment envName label attrs.index attrs.lineFr attrs.lineTo
        filePath []), structs)
    else if cfg.envs.contains envName then
      pure (some (.mk .Environment envName (capitalizeFirst envName)
        attrs.index attrs.lineFr attrs.lineTo filePath []), structs)
    else pure (none, structs)
  | .mathenv envName _ _ =>
    if cfg.envs.contains envName then
      pure (some (.mk .Environment envName (capitalizeFirst envName)
        attrs.index attrs.lineFr attrs.lineTo filePath []), structs)
    else pure (none, structs)
  | _ => pure (none, structs)


/-- Lines 251–267 of `latex.ts`: if the legacy-directive queue is non-empty
and its last entry's line is at or after the node's 0-based start line, pop
that entry and emit an `RnwChild` `SubFile` element (extracting the
sub-file when `config.subFile`). -/
def rnwCheckF : Nat → Env → StructureConfig → String → AstNode → List RnwEntry → Cache →
    Except PErr (List TeXElement × List RnwEntry × Cache)
  | 0, _, _, _, _, _, _ => .error .fuel
  | fuel + 1, env, cfg, filePath, node, rnw, structs =>
  let attrs := nodeAttrs node
  match rnw.getLast? with
  | some last =>
    if last.line ≥ attrs.lineFr then
      let el : TeXElement := .mk .SubFile "RnwChild"
        (if cfg.subFile then last.subFile else last.path)
        (((node.pos.map (fun p => p.startOffset)).getD 1) - 1)
        attrs.lineFr attrs.lineTo filePath []
      if cfg.subFile then do
        let structs' ← constructFileF fuel env cfg last.subFile structs
        pure ([el], rnw.dropLast, structs')
      else
        pure ([el], rnw.dropLast, structs)
    else pure ([], rnw, structs)
  | none => pure ([], rnw, structs)


/-- Source: `parseNode` from `latex.ts`: classify, run the legacy-queue check, then
recurse into list-shaped `content` (with the produced element, if any, as
the new root).  Returns the elements appended to the current root. -/
def parseNodeF : Nat → Env → StructureConfig → String → AstNode → List RnwEntry → Cache →
    Except PErr (List TeXElement × List RnwEntry × Cache)
  | 0, _, _, _, _, _, _ => .error .fuel
  | fuel + 1, env, cfg, filePath, node, rnw, structs => do
  let (element?, structs1) ← classifyNodeF fuel env cfg filePath node structs
  let (rnwEls, rnw1, structs2) ← rnwCheckF fuel env cfg filePath node rnw structs1
  match h : node.listContent with
  | some content =>
    let (subEls, rnw2, structs3) ← parseNodesF fuel env cfg filePath content rnw1 structs2
    match element? with
    | some el => pure (rnwEls ++ [el.withChildren subEls], rnw2, structs3)
    | none => pure (rnwEls ++ subEls, rnw2, structs3)
  | none =>
    match element? with
    | some el => pure (rnwEls ++ [el], rnw1, structs2)
    | none => pure (rnwEls, rnw1, structs2)


/-- The `for (const node of ast.content)` loops: fold `parseNode` over a
node list, threading queue and cache and concatenating the elements. -/
def parseNodesF : Nat → Env → StructureConfig → String → List AstNode → List RnwEntry →
    Cache → Except PErr (List TeXElement × List RnwEntry × Cache)
  | 0, _, _, _, _, _, _ => .error .fuel
  | _ + 1, _, _, _, [], rnw, structs => pure ([], rnw, structs)
  | fuel + 1, env, cfg, filePath, n :: rest, rnw, structs => do
    let (els, rnw1, structs1) ← parseNodeF fuel env cfg filePath n rnw structs
    let (els2, rnw2, structs2) ← parseNodesF fuel env cfg filePath rest rnw1 structs1
    pure (els ++ els2, rnw2, structs2)


/-- Source: `constructFile` from `latex.ts`: return at once when the cache already
holds an entry for the path; obtain content and AST (unavailability means
a logged return with the cache unchanged — in particular *no* entry is
written for the path); scan for legacy child directives; parse every
top-level node; then write the cache entry.  The entry is written only
*after* the recursive extraction of every included file. -/
def constructFileF (fuel : Nat) (env : Env) (cfg : StructureConfig)
    (filePath : String) (structs : Cache) : Except PErr Cache :=
  match fuel with
  | 0 => .error .fuel
  | fuel + 1 =>
    if (structs.lookup filePath).isSome then pure structs
    else
      match (env.files filePath).bind (fun e => e.content),
            (env.files filePath).bind (fun e => e.ast) with
      | some content, some ast =>
        if content = "" then pure structs
        else do
          let rnw := parseRnwChildCommand env content filePath (env.rootFile.getD "")
          let (children, _, structs') ← parseNodesF fuel env cfg filePath ast rnw structs
          pure (cacheInsert structs' filePath children)
      | _, _ => pure structs


end

/-!
## Tree assembly: sub-file splice and the two nesting passes
-/

theorem TeXElement.sizeOf_children_lt (e : TeXElement) : sizeOf e.children < sizeOf e := by
  cases e
  simp [TeXElement.children]

/-- The recursive worker of `insertSubFile` on an explicit forest (every
recursive call in the source passes one, and the root-file guard at the
top of the function is invariant across the recursion, so it is hoisted
into `insertSubFileF` below).  The recursion into a cached sub-file forest
is not structurally decreasing — a cyclic cache would loop — so the
function is step-indexed on fuel like the extraction above. -/
def insertSubFileGo : Nat → Cache → List TeXElement → Except PErr (List TeXElement)
  | 0, _, _ => .error .fuel
  | _ + 1, _, [] => pure []
  | fuel + 1, structs, e :: rest =>
    if e.type = .SubFile ∧ (structs.lookup e.label).isSome then do
      let sub ← insertSubFileGo fuel structs ((structs.lookup e.label).getD [])
      let rest' ← insertSubFileGo fuel structs rest
      pure (sub ++ rest')
    else do
      let ch' ← if e.children.isEmpty then pure e.children
                else insertSubFileGo fuel structs e.children
      let rest' ← insertSubFileGo fuel structs rest
      pure (e.withChildren ch' :: rest')

/-- Source: `insertSubFile` from `latex.ts`: `[]` when no ambient root file is
known; otherwise splice starting from the *root file's* cached forest
(`structs[lw.manager.rootFile] ?? []`), whatever file `construct` was
called on. -/
def insertSubFileF (fuel : Nat) (structs : Cache) (env : Env) : Except PErr (List TeXElement) :=
  match env.rootFile with
  | none => pure []
  | some root => insertSubFileGo fuel structs ((structs.lookup root).getD [])

mutual

/-- The per-element child recursion `element.children =
nestNonSection(element.children)` of the `nestNonSection` loop (with
`nestNonSection struct = nnsGo struct [] none` inlined so the recursion is
structural). -/
def nnsElem : TeXElement → TeXElement
  | .mk t n l i f g p ch =>
    .mk t n l i f g p (if ch.isEmpty then ch else nnsGo ch [] none)

/-- The loop of `nestNonSection`: `done` is the `elements` array without
the still-open current section, which is carried (with the children
accumulated so far) in `cur`. -/
def nnsGo : List TeXElement → List TeXElement → Option TeXElement → List TeXElement
  | [], done, cur => done ++ cur.toList
  | e :: rest, done, cur =>
    let e' := nnsElem e
    if e.type = .Section ∨ e.type = .SectionAst then
      nnsGo rest (done ++ cur.toList) (some e')
    else
      match cur with
      | none => nnsGo rest (done ++ [e']) none
      | some c => nnsGo rest done (some (c.withChildren (c.children ++ [e'])))

end

/-- Source: `nestNonSection` from `latex.ts`: left-to-right, keep sections at the
current level and make each one the current section; push every other
element under the current section when one is set; recurse independently
into children. -/
def nestNonSection (struct : List TeXElement) : List TeXElement :=
  nnsGo struct [] none

/-- The kinds `nestSection` pushes through its stack logic
(line 321: everything except `Section`, `SectionAst`, `SubFile` passes
through unchanged). -/
def isStackType (e : TeXElement) : Bool :=
  e.type = .Section || e.type = .SectionAst || e.type = .SubFile

/-- JS `a <= b` where either side may be `undefined`: false unless both
are numbers. -/
def jsLe : Option Nat → Option Nat → Bool
  | some a, some b => a ≤ b
  | _, _ => false

/-- JS `a > b` where either side may be `undefined`: false unless both
are numbers. -/
def jsGt : Option Nat → Option Nat → Bool
  | some a, some b => b < a
  | _, _ => false

/-- Fold state of `nestSection`.  The source mutates shared objects: an
element pushed on the stack is already referenced by `elements` (or by its
parent's `children`), and `stack[stack.length-1].children.push` mutates it
in place.  Here the spine is carried by value, innermost first, and an
element leaving the spine is attached as the last child of its neighbour
below — exactly where the source's push-time mutation put it, since a
parent gains no other children while a child is open above it.  `done` is
the prefix of `elements` before the open outermost section; `pending`
holds the non-section elements pushed to `elements` after it. -/
structure NSState where
  done : List TeXElement
  pending : List TeXElement
  stack : List TeXElement

/-- Re-attach the open spine (innermost first): each stacked element
becomes the last child of its neighbour below; yields `[]` or the
completed outermost tree. -/
def collapseSpine : List TeXElement → List TeXElement
  | [] => []
  | s :: rs => [rs.foldl (fun acc t => t.withChildren (t.children ++ [acc])) s]

/-- The body of the `while` loop of lines 334–336, with the current stack
top held in `top` and the rest of the spine in the list argument: pop
(attach `top` to its neighbour below and continue) as long as the new
element's rank does not exceed the top's.  Popping the whole stack makes
the source read `stack[-1].name` of `undefined` (a TypeError), modelled
as `none`. -/
def popSpineGo (cfg : StructureConfig) (re : Option Nat) :
    TeXElement → List TeXElement → Option (List TeXElement)
  | top, rest =>
    if jsLe re (cfg.rank top.name) then
      match rest with
      | [] => none
      | t :: rs => popSpineGo cfg re (t.withChildren (t.children ++ [top])) rs
    else some (top :: rest)

/-- The `while` loop of lines 334–336 on the whole spine. -/
def popSpine (cfg : StructureConfig) (re : Option Nat) :
    List TeXElement → Option (List TeXElement)
  | [] => none
  | s :: rest => popSpineGo cfg re s rest

/-- One iteration of the `nestSection` loop. -/
def nsStep (cfg : StructureConfig) (st : NSState) (e : TeXElement) : Option NSState :=
  if !(isStackType e) then
    some (if st.stack.isEmpty then ⟨st.done ++ st.pending ++ [e], [], st.stack⟩
          else ⟨st.done, st.pending ++ [e], st.stack⟩)
  else
    match st.stack with
    | [] => some ⟨st.done ++ st.pending, [], [e]⟩
    | top :: rest =>
      let s0 := (top :: rest).getLast (by simp)
      if jsLe (cfg.rank e.name) (cfg.rank s0.name) then
        some ⟨st.done ++ collapseSpine (top :: rest) ++ st.pending, [], [e]⟩
      else if jsGt (cfg.rank e.name) (cfg.rank top.name) then
        some ⟨st.done, st.pending, e :: top :: rest⟩
      else
        (popSpine cfg (cfg.rank e.name) (top :: rest)).map
          (fun stk => ⟨st.done, st.pending, e :: stk⟩)

/-- Source: `nestSection` from `latex.ts` as a fold over the sibling list; `none`
models the `TypeError` the source would throw if the pop loop ever emptied
the stack (unreachable, proved below). -/
def nestSectionO (struct : List TeXElement) (cfg : StructureConfig) :
    Option (List TeXElement) :=
  (struct.foldlM (nsStep cfg) ⟨[], [], []⟩).map
    (fun st => st.done ++ collapseSpine st.stack ++ st.pending)

/-!
## Numbering passes
-/

/-- Per-environment-name counters (`{[env: string]: number}`), newest
assignment first. -/
abbrev FloatCounter := List (String × Nat)

/-- Source: `counter[name] = (counter[name] ?? 0) + 1`. -/
def bumpCounter (c : FloatCounter) (name : String) : FloatCounter :=
  (name, ((c.lookup name).getD 0) + 1) :: c

/-- Source: `label.split(':')`, append `` ` ${n}` `` to `parts[0]`, `join(':')`. -/
def insertNumber (label : String) (n : Nat) : String :=
  match jsSplitChar ':' label with
  | [] => label
  | p :: ps => jsJoinChar ':' ((p ++ " " ++ toString n) :: ps)

mutual

/-- The body of the `addFloatNumber` loop for one element: number it when
it is a float (an `Environment` element other than the DocTeX block names
`macro` and `environment`), then recurse into non-empty children. -/
def addFloatOne : TeXElement → FloatCounter → TeXElement × FloatCounter
  | .mk t n l i f g p ch, c =>
    let isFloat := t = TeXElementType.Environment ∧ n ≠ "macro" ∧ n ≠ "environment"
    let c1 := if isFloat then bumpCounter c n else c
    let l1 := if isFloat then insertNumber l ((c1.lookup n).getD 0) else l
    let (ch', c2) := if ch.isEmpty then (ch, c1) else addFloatNumber ch c1
    (.mk t n l1 i f g p ch', c2)

/-- Source: `addFloatNumber` from `latex.ts`: depth-first traversal with one
shared counter per environment name, skipping the DocTeX block names;
the counter value lands after the label part preceding the first `:`. -/
def addFloatNumber : List TeXElement → FloatCounter → List TeXElement × FloatCounter
  | [], c => ([], c)
  | e :: rest, c =>
    let (e', c2) := addFloatOne e c
    let (rest', c3) := addFloatNumber rest c2
    (e' :: rest', c3)

end

/-- Per-rank counters of one `addSectionNumber` scope. -/
abbrev SecCounter := List (Nat × Nat)

/-- Source: `counter[r] = (counter[r] ?? 0) + 1`. -/
def bumpSec (c : SecCounter) (r : Nat) : SecCounter :=
  (r, ((c.lookup r).getD 0) + 1) :: c

/-- Source: `'0.'.repeat(k)`. -/
def zeroDots : Nat → String
  | 0 => ""
  | k + 1 => "0." ++ zeroDots k

/-! Source: `addSectionNumber` from `latex.ts`.  At the top call `lowest` becomes
`Math.min` over the scope's configured ranks (`Infinity`, modelled `none`,
for a scope without any — in which case any ranked element reaching the
subtraction would make `repeat` throw a RangeError, exactly as
`r - Infinity = -Infinity` does).  The JS throws are modelled faithfully:
`'0.'.repeat(negative)` throws `RangeError`, and reading
`counter[rank].toString()` when no section of that rank has been counted
throws `TypeError` — note the source computes `sectionNumber` *before*
testing whether the element is starred.
The source's recursive call passes both optional arguments
(`sectionNumber + '.'` and `secIndex + 1`), so its `??` defaults do not
fire and the call equals `asnGo` on those values with a fresh counter,
which is how the recursion is written (structurally) in `asnGo` below. -/

mutual

/-- The body of the `addSectionNumber` loop for one element: skip
unranked names (leaving the element and counter untouched), otherwise
count, compute the section number, relabel, and recurse into non-empty
children with the extended prefix and the rank-plus-one lowest bound. -/
def asnOne (cfg : StructureConfig) :
    TeXElement → String → Option Nat → SecCounter → Except PErr (TeXElement × SecCounter)
  | .mk t n l i f g p ch, tag, lowest, counter =>
    match cfg.rank n with
    | none => pure (TeXElement.mk t n l i f g p ch, counter)
    | some r =>
      let counter1 := if t = .Section then bumpSec counter r else counter
      match lowest with
      | none => .error (.js "RangeError: Invalid count value")
      | some low =>
        if r < low then .error (.js "RangeError: Invalid count value")
        else
          match counter1.lookup r with
          | none =>
            .error (.js "TypeError: Cannot read properties of undefined (reading toString)")
          | some cnt => do
            let sectionNumber := tag ++ zeroDots (r - low) ++ toString cnt
            let l1 := (if t = .Section then sectionNumber else "*") ++ " " ++ l
            let ch' ←
              if ch.isEmpty then pure ch
              else asnGo cfg ch (sectionNumber ++ ".") (some (r + 1)) []
            pure (TeXElement.mk t n l1 i f g p ch', counter1)

/-- The loop of `addSectionNumber`, threading the per-scope counter. -/
def asnGo (cfg : StructureConfig) :
    List TeXElement → String → Option Nat → SecCounter → Except PErr (List TeXElement)
  | [], _, _, _ => pure []
  | e :: rest, tag, lowest, counter => do
    let (e', counter1) ← asnOne cfg e tag lowest counter
    let rest' ← asnGo cfg rest tag lowest counter1
    pure (e' :: rest')

end

/-- The entry point of the numbering pass: resolve the `??` defaults
(`tag ?? ''`; `lowest ?? Math.min(...ranks of the scope)`). -/
def addSectionNumberE (cfg : StructureConfig) (struct : List TeXElement)
    (tag? : Option String) (lowest? : Option Nat) : Except PErr (List TeXElement) :=
  asnGo cfg struct (tag?.getD "")
    (lowest? <|> (struct.filterMap (fun e => cfg.rank e.name)).min?) []

/-!
## The public entry point
-/

/-- Source: `construct` from `latex.ts`: resolve the file (explicit argument, else
the ambient root file, else return `[]`), build the configuration,
extract, then splice (or read the single file's forest), nest, and number.
When `subFile` is false and extraction left no cache entry for the file
(unavailable content/AST), `struct` is `undefined` and the `for...of` of
`nestNonSection` throws (`undefined` is not iterable). -/
def constructM (fuel : Nat) (env : Env) (filePath? : Option String) (subFile : Bool) :
    Except PErr (List TeXElement) :=
  match filePath? <|> env.rootFile with
  | none => pure []
  | some filePath => do
    let cfg := refreshLaTeXModelConfig env subFile
    let structs ← constructFileF fuel env cfg filePath []
    let struct ←
      if subFile then insertSubFileF fuel structs env
      else match structs.lookup filePath with
        | some s => pure s
        | none => .error (.js "TypeError: struct is not iterable")
    let struct1 := nestNonSection struct
    let struct2 ←
      match nestSectionO struct1 cfg with
      | some s => pure s
      | none => .error (.js "TypeError: Cannot read properties of undefined (reading name)")
    let struct3 := if subFile ∧ env.floatsNumberEnabled then (addFloatNumber struct2 []).1
      else struct2
    if subFile ∧ env.numbersEnabled then addSectionNumberE cfg struct3 none none
    else pure struct3

/-!
## Auxiliary predicates and spec-side definitions used by the claims
-/

/-- Section-bearing element (glossary of the spec): a `Section` or
`SectionAst` element — the kinds participating in rank-based nesting. -/
def isSecBearing (e : TeXElement) : Bool :=
  e.type = .Section || e.type = .SectionAst

/-- The rank property of one parent/child pair: when both are
section-bearing and both names have configured ranks, the child's rank is
strictly greater than the parent's. -/
def pairRankOK (cfg : StructureConfig) (p c : TeXElement) : Bool :=
  !(isSecBearing p && isSecBearing c) ||
    (match cfg.rank p.name, cfg.rank c.name with
     | some rp, some rc => rp < rc
     | _, _ => true)

mutual

/-- Every parent/child pair in the subtree satisfies `pairRankOK`. -/
def treeRankOK (cfg : StructureConfig) : TeXElement → Bool
  | .mk t n l i f g p ch => pairsRankOK cfg (.mk t n l i f g p ch) ch

/-- All of `parent`'s direct pairs are fine and all child subtrees are. -/
def pairsRankOK (cfg : StructureConfig) (parent : TeXElement) :
    List TeXElement → Bool
  | [] => true
  | c :: cs => pairRankOK cfg parent c && treeRankOK cfg c && pairsRankOK cfg parent cs

end

/-- The `Environment` elements of one name in a flattened tree (the
floats the numbering pass counts for that name). -/
def floatsNamed (name : String) (l : List ElemCore) : List ElemCore :=
  l.filter (fun c => decide (c.type = .Environment ∧ c.name = name))

/-- Number a list of cores sequentially: the i-th element (0-based)
receives the counter value `k + i + 1` spliced into its label. -/
def numberFrom (k : Nat) : List ElemCore → List ElemCore
  | [] => []
  | c :: cs => { c with label := insertNumber c.label (k + 1) } :: numberFrom (k + 1) cs

/-- The `RnwChild` `SubFile` element that lines 254–262 push for a popped
legacy-directive entry. -/
def rnwChildElem (cfg : StructureConfig) (filePath : String) (node : AstNode)
    (entry : RnwEntry) : TeXElement :=
  .mk .SubFile "RnwChild" (if cfg.subFile then entry.subFile else entry.path)
    (((node.pos.map (fun p => p.startOffset)).getD 1) - 1)
    (nodeAttrs node).lineFr (nodeAttrs node).lineTo filePath []

/-! The claim-C2 variant below is identical to `asnGo` except that the
recursion into a ranked element's children recomputes the scope minimum
from the children's own configured ranks (the claim's "fresh lowest"),
instead of taking the parent's rank plus one. -/

mutual

/-- One element of the claim-C2 variant: as `asnOne`, but the child scope
recomputes its lowest rank from the children's own configured ranks. -/
def asnClaimOne (cfg : StructureConfig) :
    TeXElement → String → Option Nat → SecCounter → Except PErr (TeXElement × SecCounter)
  | .mk t n l i f g p ch, tag, lowest, counter =>
    match cfg.rank n with
    | none => pure (TeXElement.mk t n l i f g p ch, counter)
    | some r =>
      let counter1 := if t = .Section then bumpSec counter r else counter
      match lowest with
      | none => .error (.js "RangeError: Invalid count value")
      | some low =>
        if r < low then .error (.js "RangeError: Invalid count value")
        else
          match counter1.lookup r with
          | none =>
            .error (.js "TypeError: Cannot read properties of undefined (reading toString)")
          | some cnt => do
            let sectionNumber := tag ++ zeroDots (r - low) ++ toString cnt
            let l1 := (if t = .Section then sectionNumber else "*") ++ " " ++ l
            let ch' ←
              if ch.isEmpty then pure ch
              else
                asnClaimGo cfg ch (sectionNumber ++ ".")
                  ((ch.filterMap (fun e => cfg.rank e.name)).min?) []
            pure (TeXElement.mk t n l1 i f g p ch', counter1)

/-- The loop of the claim-C2 variant. -/
def asnClaimGo (cfg : StructureConfig) :
    List TeXElement → String → Option Nat → SecCounter → Except PErr (List TeXElement)
  | [], _, _, _ => pure []
  | e :: rest, tag, lowest, counter => do
    let (e', counter1) ← asnClaimOne cfg e tag lowest counter
    let rest' ← asnClaimGo cfg rest tag lowest counter1
    pure (e' :: rest')

end

/-- The numbering pass exactly as claim C2 describes it: identical to
`addSectionNumberE` except that the recursion into a ranked element's
children passes no `lowest`, so the child scope recomputes it as the
minimum of the children's own configured ranks.  This definition follows
the claim's words and exists only to be compared with the translation of
the source. -/
def addSectionNumberClaimC2 (cfg : StructureConfig) (struct : List TeXElement)
    (tag? : Option String) (lowest? : Option Nat) : Except PErr (List TeXElement) :=
  asnClaimGo cfg struct (tag?.getD "")
    (lowest? <|> (struct.filterMap (fun e => cfg.rank e.name)).min?) []

/-- Count of `Section`-typed elements of configured rank `r` in `l`. -/
def countSecRank (cfg : StructureConfig) (r : Nat) (l : List TeXElement) : Nat :=
  (l.filter (fun e => decide (e.type = TeXElementType.Section ∧ cfg.rank e.name = some r))).length

mutual

/-- One element of the declarative restatement: its counter value is the
count of `Section` elements of its rank among `prior` (itself included
when it is a `Section`). -/
def amOne (cfg : StructureConfig) :
    TeXElement → List TeXElement → Option Nat → String → TeXElement
  | .mk t n l i f g p ch, prior, lowest, tag =>
    match cfg.rank n with
    | none => TeXElement.mk t n l i f g p ch
    | some r =>
      let cnt := countSecRank cfg r
        (if t = .Section then prior ++ [TeXElement.mk t n l i f g p ch] else prior)
      let num := tag ++ zeroDots (r - lowest.getD 0) ++ toString cnt
      let l1 := (if t = .Section then num else "*") ++ " " ++ l
      let ch' := if ch.isEmpty then ch
        else amGo cfg ch [] (some (r + 1)) (num ++ ".")
      TeXElement.mk t n l1 i f g p ch'

/-- The loop of `secNumberAmended`; `prior` is the already-processed
prefix of the scope. -/
def amGo (cfg : StructureConfig) :
    List TeXElement → List TeXElement → Option Nat → String → List TeXElement
  | [], _, _, _ => []
  | e :: rest, prior, lowest, tag =>
    amOne cfg e prior lowest tag :: amGo cfg rest (prior ++ [e]) lowest tag

end

/-- Declarative restatement of the section-numbering pass on runs without
JS errors: the counter value of a ranked element is the count of
`Section`-typed elements of its rank among the scope elements processed
so far (itself included when it is a `Section`), and the recursion into a
ranked element's children extends the prefix with the computed number plus
a dot and uses the element's configured rank plus one as the child scope's
lowest rank. -/
def secNumberAmended (cfg : StructureConfig) (struct : List TeXElement)
    (tag : String) (lowest? : Option Nat) : List TeXElement :=
  amGo cfg struct []
    (lowest? <|> (struct.filterMap (fun e => cfg.rank e.name)).min?) tag

/-!
## Concrete environments and inputs used by the claims
-/

/-- A neutral environment: no files, resolution returns the raw path,
standard three-level section hierarchy, numbering passes off. -/
def sampleEnv : Env where
  rootFile := none
  files := fun _ => none
  resolve := fun _ s => some s
  dirname := fun _ => "."
  joinPath := fun a b => a ++ "/" ++ b
  outlineCommands := []
  floatsEnabled := true
  captionEnabled := true
  floatsNumberEnabled := false
  numbersEnabled := false
  outlineSections := ["chapter", "section", "subsection"]
  texDirs := []
  execChild := fun _ _ _ => []

/-- The configuration with the standard hierarchy
`chapter ↦ 0, section ↦ 1, subsection ↦ 2` and merging enabled. -/
def cfgStd : StructureConfig :=
  { cmds := [], envs := ["figure", "table", "frame"]
    secs := ["chapter", "section", "subsection"]
    secIndex := [("subsection", 2), ("section", 1), ("chapter", 0)]
    texDirs := [], subFile := true }

/-- An `\input{target}` macro node. -/
def inputNode (target : String) : AstNode :=
  .macroN "input" (some [AstArg.mk "\x7b" "\x7d" [.str target none]]) none

/-- A sectioning macro node `\cmd{title}` on a given 1-based line. -/
def secCmdNode (cmd title : String) (line : Nat) : AstNode :=
  .macroN cmd (some [AstArg.mk "" "" [], AstArg.mk "" "" [],
    AstArg.mk "\x7b" "\x7d" [.str title none]]) (some ⟨0, line, line⟩)

/-- An environment whose single file `A` includes itself via `\input{A}`. -/
def envSelfInclude : Env :=
  { sampleEnv with
    files := fun p =>
      if p = "A" then some ⟨some "\\input\x7bA\x7d", some [inputNode "A"]⟩ else none }

/-- A diamond inclusion graph: `A` includes `B` and `C`, and both `B` and
`C` include `D`. -/
def envDiamond : Env :=
  { sampleEnv with
    files := fun p =>
      if p = "A" then some ⟨some "a", some [inputNode "B", inputNode "C"]⟩
      else if p = "B" then some ⟨some "b", some [inputNode "D"]⟩
      else if p = "C" then some ⟨some "c", some [inputNode "D"]⟩
      else if p = "D" then some ⟨some "d", some [secCmdNode "section" "Dsec" 1]⟩
      else none }

/-- An environment whose root file `main.tex` has content but no AST
(the unavailable-source case). -/
def envNoAst : Env :=
  { sampleEnv with
    rootFile := some "main.tex"
    files := fun p => if p = "main.tex" then some ⟨some "x", none⟩ else none }

/-- An ambient root `root.tex` plus a different file `child.tex` that
includes it; each contains one distinct section. -/
def envAmbientRoot : Env :=
  { sampleEnv with
    rootFile := some "root.tex"
    files := fun p =>
      if p = "root.tex" then some ⟨some "r", some [secCmdNode "section" "RootSec" 1]⟩
      else if p = "child.tex" then
        some ⟨some "c", some [inputNode "root.tex", secCmdNode "section" "ChildSec" 2]⟩
      else none }

/-- No ambient root file is known, but `child.tex` exists and is parsable. -/
def envNoRoot : Env :=
  { sampleEnv with
    files := fun p =>
      if p = "child.tex" then some ⟨some "c", some [secCmdNode "section" "ChildSec" 2]⟩
      else none }

/-- The configuration `construct` builds for `envSelfInclude`. -/
def cfgSI : StructureConfig := refreshLaTeXModelConfig envSelfInclude true

/-!
## General helper lemmas
-/

theorem exceptOkBind {e a b : Type} (x : a) (f : a → Except e b) :
    (Except.ok x : Except e a) >>= f = f x := rfl

theorem exceptErrBind {e a b : Type} (err : e) (f : a → Except e b) :
    (Except.error err : Except e a) >>= f = .error err := rfl

/-- On the self-including file, every extraction function runs out of fuel
at every fuel value: the cache entry for `A` is only written after the
recursive extraction of `A`'s inclusions, so the cache-presence guard
never fires and the recursion is unbounded. -/
theorem selfInclude_no_fuel_suffices (n : Nat) :
    constructFileF n envSelfInclude cfgSI "A" [] = .error .fuel ∧
    parseNodesF n envSelfInclude cfgSI "A" [inputNode "A"] [] [] = .error .fuel ∧
    parseNodeF n envSelfInclude cfgSI "A" (inputNode "A") [] [] = .error .fuel ∧
    classifyNodeF n envSelfInclude cfgSI "A" (inputNode "A") [] = .error .fuel := by
  induction n with
  | zero => exact ⟨rfl, rfl, rfl, rfl⟩
  | succ n ih =>
    obtain ⟨hP, hQ, hR, hS⟩ := ih
    refine ⟨?_, ?_, ?_, ?_⟩
    · rw [constructFileF]
      have hf : envSelfInclude.files "A" =
          some ⟨some "\\input\x7bA\x7d", some [inputNode "A"]⟩ := rfl
      have hx : parseRnwChildCommand envSelfInclude "\\input\x7bA\x7d" "A"
          (envSelfInclude.rootFile.getD "") = [] := rfl
      simp only [List.lookup, hf, Option.some_bind, reduceIte, hx, hQ]
      rfl
    · rw [parseNodesF]
      rw [hR]
      rfl
    · rw [parseNodeF]
      rw [hS]
      rfl
    · simp only [inputNode]
      rw [classifyNodeF]
      have h1 : cfgSI.secs.contains "input" = false := by decide
      have h2 : cfgSI.cmds.contains "input" = false := by decide
      have h3 : argContentToStr (argContentAt (some [AstArg.mk "\x7b" "\x7d"
          [AstNode.str "A" none]]) 0) = .ok "A" := rfl
      have h4 : envSelfInclude.resolve
          ([envSelfInclude.dirname "A",
            envSelfInclude.dirname (envSelfInclude.rootFile.getD "")] ++ cfgSI.texDirs) "A" =
          some "A" := rfl
      have h5 : cfgSI.subFile = true := rfl
      simp only [h1, h2, h3, h5, Bool.false_eq_true, if_false, if_true,
        List.contains_cons, exceptOkBind]
      simp only [h3, exceptOkBind, h4, h5, if_true, hP, exceptErrBind]
      rfl

/-!
## The claims
-/

/-- C1 (counterexample): a file that includes itself is re-entered before
its cache entry exists, so the per-file extraction does not terminate: no
fuel value makes `constructFile` on `A` complete. -/
theorem constructFile_selfInclude_diverges :
    ¬ ∃ fuel out, constructFileF fuel envSelfInclude cfgSI "A" [] = .ok out := by
  rintro ⟨fuel, out, h⟩
  rw [(selfInclude_no_fuel_suffices fuel).1] at h
  exact absurd h (by simp)

/-- C1 (amended): `constructFile` returns immediately, leaving the cache
unchanged, whenever the cache already holds an entry for the file path, so
a file whose extraction has *completed* is never re-extracted — diamond
inclusion extracts each file exactly once, as the concrete diamond graph
`A → B → D, A → C → D` shows (each of the four files gets exactly one
cache entry).  The guard does not terminate cyclic inclusion, because the
entry is written only after extraction completes (see the counterexample). -/
theorem constructFile_cached_guard :
    (∀ fuel env cfg fp structs, (structs.lookup fp).isSome →
        constructFileF (fuel + 1) env cfg fp structs = .ok structs) ∧
    (constructFileF 40 envDiamond (refreshLaTeXModelConfig envDiamond true) "A" []).map
        (fun c => c.map (fun kv => kv.1)) = .ok ["A", "C", "B", "D"] := by
  constructor
  · intro fuel env cfg fp structs h
    rw [constructFileF]
    simp only [h, if_true]
    rfl
  · decide

/-- Witness for `constructFile_cached_guard`: a cache already holding an
entry for `A` is returned unchanged. -/
theorem constructFile_cached_guard_witness :
    constructFileF 1 sampleEnv cfgStd "A" [("A", [])] = .ok [("A", [])] :=
  constructFile_cached_guard.1 0 sampleEnv cfgStd "A" [("A", [])] (by decide)

/-- C5 (code_bug): on a tree whose only element is a starred section with
no preceding numbered section of its rank, the numbering pass computes
`sectionNumber` before testing for starredness and reads
`counter[rank].toString()` of an absent entry: a thrown `TypeError`, not a
`*`-prefixed label. -/
theorem addSectionNumber_starred_throws :
    addSectionNumberE cfgStd [.mk .SectionAst "section" "Intro" 0 0 0 "a.tex" []] none none =
      .error (.js "TypeError: Cannot read properties of undefined (reading toString)") := by
  decide

/-- C6 (code_bug): when the root file's AST is unavailable and sub-file
merging is disabled, `structs[filePath]` is never written, `struct` is
`undefined`, and the `for...of` of `nestNonSection` throws — `construct`
does not return an empty result.  With merging enabled the same
unavailable file does yield the empty result the claim describes. -/
theorem construct_unavailable_root_throws :
    constructM 20 envNoAst (some "main.tex") false =
      .error (.js "TypeError: struct is not iterable") ∧
    constructM 20 envNoAst (some "main.tex") true = .ok [] := by
  exact ⟨by decide, by decide⟩

theorem stringAppend_empty (s : String) : s ++ "" = s := by
  cases s
  simp [String.append]

theorem exceptPureBind {e a b : Type} (x : a) (f : a → Except e b) :
    (pure x : Except e a) >>= f = f x := rfl

/-- C8: the node renderer maps a nested environment, verbatim environment
or math environment to the fixed placeholder `\environment{<env-name>}`
without rendering its body; inline math to `$` + rendered content + `$`;
a group to its rendered content with no delimiters; and a node kind
outside its case list (`other`) to the empty string, raising no error in
any of these cases. -/
theorem nodeRenderer_cases (e : String) (args : Option (List AstArg))
    (body : List AstNode) (vc : String) (c : List AstNode) (p : Option AstPosition) :
    argContentToStr [AstNode.environment e args body p] = .ok (envToStr e) ∧
    argContentToStr [AstNode.verbatim e vc p] = .ok (envToStr e) ∧
    argContentToStr [AstNode.mathenv e body p] = .ok (envToStr e) ∧
    envToStr e = "\\environment\x7b" ++ e ++ "\x7d" ∧
    argContentToStr [AstNode.inlinemath c p] =
      (argContentToStr c).map (fun s => "$" ++ s ++ "$") ∧
    argContentToStr [AstNode.group c p] = argContentToStr c ∧
    argContentToStr [AstNode.other p] = .ok "" := by
  refine ⟨?_, ?_, ?_, rfl, ?_, ?_, ?_⟩ <;>
    simp only [argContentToStr, nodeToStr] <;>
    cases h : argContentToStr c <;>
    simp [h, exceptOkBind, exceptErrBind, Except.map, stringAppend_empty]

/-- C9: with sub-file merging enabled the splice pass starts from the
ambient root file's cached forest, not from the file passed to
`construct`: with no ambient root known, `construct` yields `[]` even
though the explicit file was supplied and extracted; with ambient root
`root.tex`, `construct "child.tex"` yields the tree extracted from
`root.tex` (its `RootSec` section), not the one from `child.tex`. -/
theorem construct_splices_from_ambient_root :
    (∀ fuel env fp out, env.rootFile = none →
        constructM fuel env (some fp) true = .ok out → out = []) ∧
    constructM 30 envAmbientRoot (some "child.tex") true =
      .ok [.mk .Section "section" "RootSec" 0 0 0 "root.tex" []] ∧
    constructM 30 envNoRoot (some "child.tex") true = .ok [] := by
  refine ⟨?_, by decide, by decide⟩
  intro fuel env fp out hroot h
  unfold constructM at h
  rw [hroot] at h
  have horelse : (some fp <|> (none : Option String)) = some fp := rfl
  rw [horelse] at h
  simp only [insertSubFileF, hroot] at h
  cases hcf : constructFileF fuel env (refreshLaTeXModelConfig env true) fp [] with
  | error err => rw [hcf] at h; simp [exceptErrBind] at h
  | ok structs =>
    rw [hcf] at h
    have hnn : nestNonSection ([] : List TeXElement) = [] := rfl
    have hns : nestSectionO [] (refreshLaTeXModelConfig env true) = some [] := rfl
    have hfl : (addFloatNumber ([] : List TeXElement) []).1 = [] := rfl
    have hasn : addSectionNumberE (refreshLaTeXModelConfig env true) [] none none =
      .ok [] := rfl
    simp only [exceptOkBind, exceptPureBind, if_true, true_and, hnn, hns, hfl, hasn] at h
    cases hn : env.numbersEnabled <;> cases hf : env.floatsNumberEnabled <;>
      simp only [hn, hf, if_true, if_false, hfl, hasn, Bool.false_eq_true, reduceIte] at h <;>
      exact (Except.ok.injEq _ _ ▸ h).symm

/-- Witness for `construct_splices_from_ambient_root`: the no-ambient-root
conjunct applied to the concrete `envNoRoot` run. -/
theorem construct_splices_from_ambient_root_witness : ([] : List TeXElement) = [] :=
  construct_splices_from_ambient_root.1 30 envNoRoot "child.tex" [] rfl (by decide)

/-- C3 (counterexample): at a node starting on line 0 the queue's last
entry with line 5 *is* popped and an `RnwChild` element inserted, although
the claim's condition — entry line at or before the node's start line —
fails (5 ≰ 0); the code compares with `>=`, not `<=`. -/
theorem rnwCheck_pops_later_entry :
    rnwCheckF 1 sampleEnv { cfgStd with subFile := false } "f"
        (.str "x" (some ⟨0, 1, 1⟩)) [⟨"sub.tex", "sub", 5⟩] [] =
      .ok ([.mk .SubFile "RnwChild" "sub" 0 0 0 "f" []], [], []) ∧
    ¬ ((⟨"sub.tex", "sub", 5⟩ : RnwEntry).line ≤
        (nodeAttrs (.str "x" (some ⟨0, 1, 1⟩))).lineFr) := by
  exact ⟨by decide, by decide⟩

/-- C3 (amended): during the per-file walk, the queued legacy entry is
popped and the `RnwChild` `SubFile` element inserted exactly when the
queue is non-empty and its last entry's line number is at or *after*
(greater than or equal to) the node's 0-based start line; otherwise
queue, cache and output are untouched.  In the popping case the behaviour
depends on the merging flag: with sub-file merging enabled the popped
entry's sub-file is additionally extracted (`constructFileF` on
`entry.subFile`), the resulting cache threaded through and an extraction
error propagated; with merging disabled the cache is untouched.  Either
way the inserted element is `rnwChildElem` and the entry leaves the
queue. -/
theorem rnwCheck_pop_condition (fuel : Nat) (env : Env) (cfg : StructureConfig)
    (fp : String) (node : AstNode) (rnw : List RnwEntry) (structs : Cache) :
    (∀ last, rnw.getLast? = some last → (nodeAttrs node).lineFr ≤ last.line →
        rnwCheckF (fuel + 1) env cfg fp node rnw structs =
          (if cfg.subFile then
            (constructFileF fuel env cfg last.subFile structs).bind
              (fun structs' =>
                .ok ([rnwChildElem cfg fp node last], rnw.dropLast, structs'))
          else .ok ([rnwChildElem cfg fp node last], rnw.dropLast, structs))) ∧
    (∀ last, rnw.getLast? = some last → last.line < (nodeAttrs node).lineFr →
        rnwCheckF (fuel + 1) env cfg fp node rnw structs = .ok ([], rnw, structs)) ∧
    (rnw = [] → rnwCheckF (fuel + 1) env cfg fp node rnw structs =
        .ok ([], rnw, structs)) := by
  refine ⟨?_, ?_, ?_⟩
  · intro last hlast hle
    rw [rnwCheckF, hlast]
    simp only [ge_iff_le, hle, if_true, rnwChildElem]
    cases hs : cfg.subFile with
    | false =>
      simp only [hs, Bool.false_eq_true, if_false]
      rfl
    | true =>
      simp only [hs, if_true]
      rfl
  · intro last hlast hlt
    rw [rnwCheckF, hlast]
    simp only [ge_iff_le, if_neg (by omega : ¬ (nodeAttrs node).lineFr ≤ last.line)]
    rfl
  · intro hnil
    subst hnil
    rw [rnwCheckF]
    rfl

/-- Witness for `rnwCheck_pop_condition`: concrete runs of all three
conjuncts — a pop with merging enabled (the sub-file extraction is run
and its cache threaded through), a pop with merging disabled (cache
untouched), and a queue entry below the boundary that stays queued. -/
theorem rnwCheck_pop_condition_witness :
    (rnwCheckF 2 sampleEnv cfgStd "f"
        (.str "x" (some ⟨0, 1, 1⟩)) [⟨"sub.tex", "sub", 5⟩] [] =
      (if cfgStd.subFile then
        (constructFileF 1 sampleEnv cfgStd
            (⟨"sub.tex", "sub", 5⟩ : RnwEntry).subFile []).bind
          (fun structs' =>
            .ok ([rnwChildElem cfgStd "f" (.str "x" (some ⟨0, 1, 1⟩))
                ⟨"sub.tex", "sub", 5⟩],
              ([⟨"sub.tex", "sub", 5⟩] : List RnwEntry).dropLast, structs'))
      else .ok ([rnwChildElem cfgStd "f" (.str "x" (some ⟨0, 1, 1⟩))
          ⟨"sub.tex", "sub", 5⟩],
        ([⟨"sub.tex", "sub", 5⟩] : List RnwEntry).dropLast, []))) ∧
    (rnwCheckF 1 sampleEnv { cfgStd with subFile := false } "f"
        (.str "x" (some ⟨0, 1, 1⟩)) [⟨"sub.tex", "sub", 5⟩] [] =
      (if ({ cfgStd with subFile := false } : StructureConfig).subFile then
        (constructFileF 0 sampleEnv { cfgStd with subFile := false }
            (⟨"sub.tex", "sub", 5⟩ : RnwEntry).subFile []).bind
          (fun structs' =>
            .ok ([rnwChildElem { cfgStd with subFile := false } "f"
                (.str "x" (some ⟨0, 1, 1⟩)) ⟨"sub.tex", "sub", 5⟩],
              ([⟨"sub.tex", "sub", 5⟩] : List RnwEntry).dropLast, structs'))
      else .ok ([rnwChildElem { cfgStd with subFile := false } "f"
          (.str "x" (some ⟨0, 1, 1⟩)) ⟨"sub.tex", "sub", 5⟩],
        ([⟨"sub.tex", "sub", 5⟩] : List RnwEntry).dropLast, []))) ∧
    (rnwCheckF 1 sampleEnv { cfgStd with subFile := false } "f"
        (.str "x" (some ⟨0, 3, 3⟩)) [⟨"s.tex", "s", 1⟩] [] =
      .ok ([], [⟨"s.tex", "s", 1⟩], [])) :=
  ⟨(rnwCheck_pop_condition 1 sampleEnv cfgStd "f"
      (.str "x" (some ⟨0, 1, 1⟩)) [⟨"sub.tex", "sub", 5⟩] []).1
      ⟨"sub.tex", "sub", 5⟩ rfl (by decide),
   (rnwCheck_pop_condition 0 sampleEnv { cfgStd with subFile := false } "f"
      (.str "x" (some ⟨0, 1, 1⟩)) [⟨"sub.tex", "sub", 5⟩] []).1
      ⟨"sub.tex", "sub", 5⟩ rfl (by decide),
   (rnwCheck_pop_condition 0 sampleEnv { cfgStd with subFile := false } "f"
      (.str "x" (some ⟨0, 3, 3⟩)) [⟨"s.tex", "s", 1⟩] []).2.1 ⟨"s.tex", "s", 1⟩
      rfl (by decide)⟩

/-- The chapter-with-direct-subsection tree (a two-level rank gap) on
which the code's child lowest bound (`parent rank + 1`) and the claim's
(minimum of the children's own ranks) give different numbers. -/
def gapTree : List TeXElement :=
  [.mk .Section "chapter" "Chap" 0 0 0 "a"
    [.mk .Section "subsection" "Sub" 0 1 1 "a" []]]

/-- C2 (counterexample): on `gapTree`, the code numbers the subsection
`1.0.1` (lowest = chapter rank + 1 = 1, so one `0.` of padding), while the
claim's fresh-minimum rule numbers it `1.1` (lowest = 2, no padding) — so
the pass does not compute the child scope's lowest rank from the
children's own ranks. -/
theorem sectionNumber_childLowest_counterexample :
    addSectionNumberE cfgStd gapTree none none =
      .ok [.mk .Section "chapter" "1 Chap" 0 0 0 "a"
        [.mk .Section "subsection" "1.0.1 Sub" 0 1 1 "a" []]] ∧
    addSectionNumberClaimC2 cfgStd gapTree none none =
      .ok [.mk .Section "chapter" "1 Chap" 0 0 0 "a"
        [.mk .Section "subsection" "1.1 Sub" 0 1 1 "a" []]] ∧
    addSectionNumberE cfgStd gapTree none none ≠
      addSectionNumberClaimC2 cfgStd gapTree none none := by
  exact ⟨by decide, by decide, by decide⟩

/-- The forest section(rank 0), command, section(rank 1) whose depth-first
order `nestSection` does not preserve. -/
def c10Input : List TeXElement :=
  [.mk .Section "chapter" "S" 0 0 0 "a" [],
   .mk .Command "foo" "#foo" 0 1 1 "a" [],
   .mk .Section "section" "T" 0 2 2 "a" []]

/-- C10 (counterexample): `nestSection` nests the later subsection `T`
into the still-open section `S`, which precedes the command in the output,
so the depth-first traversal of the output visits `S, T, foo` while the
input order was `S, foo, T` — the pass preserves the elements but not
their relative depth-first order. -/
theorem nestSection_reorders :
    nestSectionO c10Input cfgStd =
      some [.mk .Section "chapter" "S" 0 0 0 "a"
              [.mk .Section "section" "T" 0 2 2 "a" []],
            .mk .Command "foo" "#foo" 0 1 1 "a" []] ∧
    (nestSectionO c10Input cfgStd).map flattenL ≠ some (flattenL c10Input) := by
  exact ⟨by decide, by decide⟩

theorem bumpCounter_lookup_self (c : FloatCounter) (n : String) :
    (bumpCounter c n).lookup n = some (((c.lookup n).getD 0) + 1) := by
  simp [bumpCounter, List.lookup]

theorem bumpCounter_lookup_ne (c : FloatCounter) (n m : String) (h : m ≠ n) :
    (bumpCounter c n).lookup m = c.lookup m := by
  simp [bumpCounter, List.lookup, beq_eq_false_iff_ne.mpr h]

theorem numberFrom_append (k : Nat) (a b : List ElemCore) :
    numberFrom k (a ++ b) = numberFrom k a ++ numberFrom (k + a.length) b := by
  induction a generalizing k with
  | nil => simp [numberFrom]
  | cons x xs ih =>
    simp only [List.cons_append, numberFrom, List.length_cons, List.append_eq]
    rw [ih (k + 1), show k + 1 + xs.length = k + (xs.length + 1) from by omega]

theorem addFloatNumber_nil_collapse (ch : List TeXElement) (c1 : FloatCounter) :
    (if ch.isEmpty then (ch, c1) else addFloatNumber ch c1) = addFloatNumber ch c1 := by
  cases hE : ch.isEmpty
  · simp [hE]
  · have hnil : ch = [] := List.isEmpty_iff.mp hE
    subst hnil
    simp [addFloatNumber]

theorem addFloatOne_unfold (t : TeXElementType) (nm l : String) (i f g : Nat) (p : String)
    (ch : List TeXElement) (c : FloatCounter) :
    addFloatOne (TeXElement.mk t nm l i f g p ch) c =
      (TeXElement.mk t nm
        (if t = TeXElementType.Environment ∧ nm ≠ "macro" ∧ nm ≠ "environment" then
          insertNumber l
            (((if t = TeXElementType.Environment ∧ nm ≠ "macro" ∧ nm ≠ "environment" then
                bumpCounter c nm else c).lookup nm).getD 0)
         else l) i f g p
        (addFloatNumber ch
          (if t = TeXElementType.Environment ∧ nm ≠ "macro" ∧ nm ≠ "environment" then
            bumpCounter c nm else c)).1,
       (addFloatNumber ch
         (if t = TeXElementType.Environment ∧ nm ≠ "macro" ∧ nm ≠ "environment" then
           bumpCounter c nm else c)).2) := by
  rcases hx : addFloatNumber ch
      (if t = TeXElementType.Environment ∧ nm ≠ "macro" ∧ nm ≠ "environment" then
        bumpCounter c nm else c) with ⟨ch1, c2⟩
  simp only [addFloatOne, addFloatNumber_nil_collapse]
  simp only [hx]

theorem floatsNamed_append (name : String) (a b : List ElemCore) :
    floatsNamed name (a ++ b) = floatsNamed name a ++ floatsNamed name b := by
  simp [floatsNamed]

theorem floatsNamed_cons_pos (name : String) (x : ElemCore) (xs : List ElemCore)
    (h : x.type = .Environment ∧ x.name = name) :
    floatsNamed name (x :: xs) = x :: floatsNamed name xs := by
  simp [floatsNamed, List.filter_cons, h]

theorem floatsNamed_cons_neg (name : String) (x : ElemCore) (xs : List ElemCore)
    (h : ¬(x.type = .Environment ∧ x.name = name)) :
    floatsNamed name (x :: xs) = floatsNamed name xs := by
  simp [floatsNamed, List.filter_cons, h]

theorem floatCount_main (name : String) (h1 : name ≠ "macro") (h2 : name ≠ "environment") :
    ∀ n (struct : List TeXElement) (c : FloatCounter), sizeOf struct ≤ n →
      floatsNamed name (flattenL (addFloatNumber struct c).1) =
        numberFrom ((c.lookup name).getD 0) (floatsNamed name (flattenL struct)) ∧
      (((addFloatNumber struct c).2).lookup name).getD 0 =
        (c.lookup name).getD 0 + (floatsNamed name (flattenL struct)).length := by
  intro n
  induction n using Nat.strong_induction_on with
  | _ n ih =>
    intro struct c hle
    match struct with
    | [] => simp [addFloatNumber, floatsNamed, numberFrom]
    | (TeXElement.mk t nm l i f g p ch) :: rest =>
      have hch : sizeOf ch < sizeOf ((TeXElement.mk t nm l i f g p ch) :: rest) := by
        simp <;> omega
      have hrest : sizeOf rest < sizeOf ((TeXElement.mk t nm l i f g p ch) :: rest) := by
        simp <;> omega
      have hstep : addFloatNumber ((TeXElement.mk t nm l i f g p ch) :: rest) c =
          ((addFloatOne (TeXElement.mk t nm l i f g p ch) c).1 ::
            (addFloatNumber rest (addFloatOne (TeXElement.mk t nm l i f g p ch) c).2).1,
           (addFloatNumber rest (addFloatOne (TeXElement.mk t nm l i f g p ch) c).2).2) := rfl
      rw [hstep, addFloatOne_unfold]
      by_cases hF : (t = TeXElementType.Environment ∧ nm = name)
      · obtain ⟨hT, hN⟩ := hF
        subst hN
        subst hT
        have hP : (TeXElementType.Environment = TeXElementType.Environment ∧
            nm ≠ "macro" ∧ nm ≠ "environment") := ⟨rfl, h1, h2⟩
        rw [if_pos hP, if_pos hP]
        have hself := bumpCounter_lookup_self c nm
        obtain ⟨ic1, ic2⟩ := ih (sizeOf ch) (by omega) ch (bumpCounter c nm) le_rfl
        obtain ⟨ir1, ir2⟩ := ih (sizeOf rest) (by omega) rest
          ((addFloatNumber ch (bumpCounter c nm)).2) le_rfl
        rw [hself] at ic1
        simp only [Option.getD_some] at ic1
        rw [ic2, hself] at ir1 ir2
        simp only [Option.getD_some] at ir1 ir2
        rw [hself]
        simp only [Option.getD_some]
        constructor
        · rw [flattenL_cons, flattenE_mk, List.cons_append,
            floatsNamed_cons_pos nm ⟨TeXElementType.Environment, nm,
              insertNumber l ((c.lookup nm).getD 0 + 1), i, f, g, p⟩ _ ⟨rfl, rfl⟩,
            flattenL_cons, flattenE_mk, List.cons_append,
            floatsNamed_cons_pos nm ⟨TeXElementType.Environment, nm, l, i, f, g, p⟩ _
              ⟨rfl, rfl⟩,
            floatsNamed_append, floatsNamed_append, numberFrom, numberFrom_append,
            ic1, ir1]
        · rw [ir2, flattenL_cons, flattenE_mk, List.cons_append,
            floatsNamed_cons_pos nm ⟨TeXElementType.Environment, nm, l, i, f, g, p⟩ _
              ⟨rfl, rfl⟩,
            floatsNamed_append]
          simp only [List.length_cons, List.length_append]
          omega
      · have hc1 : ((if t = TeXElementType.Environment ∧ nm ≠ "macro" ∧ nm ≠ "environment" then
            bumpCounter c nm else c).lookup name).getD 0 = (c.lookup name).getD 0 := by
          by_cases hP : (t = TeXElementType.Environment ∧ nm ≠ "macro" ∧ nm ≠ "environment")
          · have hne : name ≠ nm := by
              intro hcontra
              exact hF ⟨hP.1, hcontra.symm⟩
            rw [if_pos hP, bumpCounter_lookup_ne c nm name hne]
          · rw [if_neg hP]
        obtain ⟨ic1, ic2⟩ := ih (sizeOf ch) (by omega) ch
          (if t = TeXElementType.Environment ∧ nm ≠ "macro" ∧ nm ≠ "environment" then
            bumpCounter c nm else c) le_rfl
        obtain ⟨ir1, ir2⟩ := ih (sizeOf rest) (by omega) rest
          ((addFloatNumber ch
            (if t = TeXElementType.Environment ∧ nm ≠ "macro" ∧ nm ≠ "environment" then
              bumpCounter c nm else c)).2) le_rfl
        rw [hc1] at ic1
        rw [ic2, hc1] at ir1 ir2
        have hFcore : ¬((⟨t, nm,
            (if t = TeXElementType.Environment ∧ nm ≠ "macro" ∧ nm ≠ "environment" then
              insertNumber l
                (((if t = TeXElementType.Environment ∧ nm ≠ "macro" ∧ nm ≠ "environment" then
                    bumpCounter c nm else c).lookup nm).getD 0)
             else l), i, f, g, p⟩ : ElemCore).type = TeXElementType.Environment ∧
            (⟨t, nm,
            (if t = TeXElementType.Environment ∧ nm ≠ "macro" ∧ nm ≠ "environment" then
              insertNumber l
                (((if t = TeXElementType.Environment ∧ nm ≠ "macro" ∧ nm ≠ "environment" then
                    bumpCounter c nm else c).lookup nm).getD 0)
             else l), i, f, g, p⟩ : ElemCore).name = name) := by
          simpa using hF
        have hFcore0 : ¬((⟨t, nm, l, i, f, g, p⟩ : ElemCore).type =
            TeXElementType.Environment ∧
            (⟨t, nm, l, i, f, g, p⟩ : ElemCore).name = name) := by
          simpa using hF
        constructor
        · rw [flattenL_cons, flattenE_mk, List.cons_append,
            floatsNamed_cons_neg name _ _ hFcore,
            flattenL_cons, flattenE_mk, List.cons_append,
            floatsNamed_cons_neg name _ _ hFcore0,
            floatsNamed_append, floatsNamed_append, numberFrom_append, ic1, ir1]
        · rw [ir2, flattenL_cons, flattenE_mk, List.cons_append,
            floatsNamed_cons_neg name _ _ hFcore0, floatsNamed_append]
          simp only [List.length_append]
          omega


/-- C7: after the float-numbering pass, the `Environment` elements of any
one name (other than the DocTeX block names `macro` and `environment`),
taken in depth-first document order anywhere in the tree, carry exactly
the numbers `1..N` in that order — one shared counter per name across all
nesting levels — each spliced into the label after the part preceding the
first `:` (or at the end when there is none). -/
theorem addFloatNumber_counts (struct : List TeXElement) (name : String)
    (h1 : name ≠ "macro") (h2 : name ≠ "environment") :
    floatsNamed name (flattenL (addFloatNumber struct []).1) =
      numberFrom 0 (floatsNamed name (flattenL struct)) := by
  have h := (floatCount_main name h1 h2 (sizeOf struct) struct [] le_rfl).1
  simpa using h

/-- Witness for `addFloatNumber_counts`: two nested figures and one
sibling figure are numbered 1, 2, 3 in depth-first order. -/
theorem addFloatNumber_counts_witness :
    floatsNamed "figure" (flattenL (addFloatNumber
      [TeXElement.mk .Environment "figure" "Figure: a" 0 0 0 "a"
        [.mk .Environment "figure" "Figure" 0 0 0 "a" []],
       .mk .Environment "figure" "Figure: b" 0 0 0 "a" []] []).1) =
      numberFrom 0 (floatsNamed "figure" (flattenL
      [TeXElement.mk .Environment "figure" "Figure: a" 0 0 0 "a"
        [.mk .Environment "figure" "Figure" 0 0 0 "a" []],
       .mk .Environment "figure" "Figure: b" 0 0 0 "a" []])) :=
  addFloatNumber_counts _ "figure" (by decide) (by decide)

end LatexOutline

namespace LatexOutline

theorem bumpSec_lookup_self (c : SecCounter) (r : Nat) :
    (bumpSec c r).lookup r = some (((c.lookup r).getD 0) + 1) := by
  simp [bumpSec, List.lookup]

theorem bumpSec_lookup_ne (c : SecCounter) (r s : Nat) (h : s ≠ r) :
    (bumpSec c r).lookup s = c.lookup s := by
  simp [bumpSec, List.lookup, beq_eq_false_iff_ne.mpr h]

theorem countSecRank_append (cfg : StructureConfig) (r : Nat)
    (prior : List TeXElement) (e : TeXElement) :
    countSecRank cfg r (prior ++ [e]) = countSecRank cfg r prior +
      (if e.type = TeXElementType.Section ∧ cfg.rank e.name = some r then 1 else 0) := by
  by_cases h : (e.type = TeXElementType.Section ∧ cfg.rank e.name = some r) <;>
    simp [countSecRank, List.filter_append, List.filter_cons, h]

theorem asnBindCollapse {A : Type} (cfg : StructureConfig) (ch : List TeXElement)
    (tg : String) (lw : Option Nat) (k : List TeXElement → Except PErr A) :
    (if ch.isEmpty then pure ch >>= k else asnGo cfg ch tg lw [] >>= k) =
    asnGo cfg ch tg lw [] >>= k := by
  cases hE : ch.isEmpty
  · simp [hE]
  · have hnil : ch = [] := List.isEmpty_iff.mp hE
    subst hnil
    simp [asnGo]

theorem amGo_nil_collapse (cfg : StructureConfig) (ch : List TeXElement)
    (lw : Option Nat) (tg : String) :
    (if ch.isEmpty then ch else amGo cfg ch [] lw tg) = amGo cfg ch [] lw tg := by
  cases hE : ch.isEmpty
  · simp [hE]
  · have hnil : ch = [] := List.isEmpty_iff.mp hE
    subst hnil
    simp [amGo]

theorem asnAmendedMain (cfg : StructureConfig) :
    ∀ n (l : List TeXElement) (tag : String) (lowest : Option Nat)
      (counter : SecCounter) (prior : List TeXElement) (out : List TeXElement),
      sizeOf l ≤ n →
      (∀ r, (counter.lookup r).getD 0 = countSecRank cfg r prior) →
      asnGo cfg l tag lowest counter = .ok out →
      out = amGo cfg l prior lowest tag := by
  intro n
  induction n using Nat.strong_induction_on with
  | _ n ih =>
    intro l tag lowest counter prior out hle hinv hok
    match l with
    | [] =>
      simp only [asnGo] at hok
      cases hok
      rfl
    | (TeXElement.mk t nm lab i f g p ch) :: rest =>
      have hch : sizeOf ch < sizeOf ((TeXElement.mk t nm lab i f g p ch) :: rest) := by
        simp <;> omega
      have hrest : sizeOf rest < sizeOf ((TeXElement.mk t nm lab i f g p ch) :: rest) := by
        simp <;> omega
      have hexp : asnGo cfg ((TeXElement.mk t nm lab i f g p ch) :: rest) tag lowest counter =
          (asnOne cfg (TeXElement.mk t nm lab i f g p ch) tag lowest counter) >>=
            (fun x => (asnGo cfg rest tag lowest x.2) >>=
              (fun rest' => pure (x.1 :: rest'))) := rfl
      rw [hexp] at hok
      cases hOne : asnOne cfg (TeXElement.mk t nm lab i f g p ch) tag lowest counter with
      | error e0 => rw [hOne] at hok; exact absurd hok (by simp [exceptErrBind])
      | ok x =>
        rw [hOne, exceptOkBind] at hok
        cases hRest : asnGo cfg rest tag lowest x.2 with
        | error e0 => rw [hRest] at hok; exact absurd hok (by simp [exceptErrBind])
        | ok rest' =>
          rw [hRest, exceptOkBind] at hok
          have hout : out = x.1 :: rest' := by
            cases hok
            rfl
          simp only [amGo]
          cases hrank : cfg.rank nm with
          | none =>
            simp only [asnOne, hrank] at hOne
            have hx : x = (TeXElement.mk t nm lab i f g p ch, counter) := by
              cases hOne
              rfl
            subst hx
            simp only [amOne, hrank]
            have hRest' : rest' = amGo cfg rest (prior ++ [TeXElement.mk t nm lab i f g p ch])
                lowest tag := by
              refine ih (sizeOf rest) (by omega) rest tag lowest counter _ rest'
                le_rfl ?_ hRest
              intro r
              rw [hinv, countSecRank_append]
              simp [hrank]
            rw [hout, hRest']
          | some r =>
            cases lowest with
            | none =>
              simp only [asnOne, hrank] at hOne
              exact absurd hOne (by simp)
            | some low =>
              simp only [asnOne, hrank] at hOne
              by_cases hr : r < low
              · rw [if_pos hr] at hOne
                exact absurd hOne (by simp)
              · rw [if_neg hr] at hOne
                have hinv1 : ∀ s,
                    (((if t = TeXElementType.Section then bumpSec counter r
                       else counter).lookup s).getD 0) =
                    countSecRank cfg s (prior ++ [TeXElement.mk t nm lab i f g p ch]) := by
                  intro s
                  rw [countSecRank_append]
                  by_cases ht : t = TeXElementType.Section
                  · by_cases hsr : s = r
                    · subst hsr
                      simp [ht, bumpSec_lookup_self, hinv, hrank]
                    · simp [ht, bumpSec_lookup_ne counter r s hsr, hinv, hrank,
                        Ne.symm hsr]
                  · simp [ht, hinv]
                cases hlk : (if t = TeXElementType.Section then bumpSec counter r
                    else counter).lookup r with
                | none => rw [hlk] at hOne; exact absurd hOne (by simp)
                | some cnt =>
                  rw [hlk] at hOne
                  simp only [asnBindCollapse] at hOne
                  cases hch' : asnGo cfg ch
                      ((tag ++ zeroDots (r - low) ++ toString cnt) ++ ".")
                      (some (r + 1)) [] with
                  | error e0 =>
                    rw [hch'] at hOne
                    exact absurd hOne (by simp [exceptErrBind])
                  | ok chOut =>
                    rw [hch', exceptOkBind] at hOne
                    have hx : x = (TeXElement.mk t nm
                        ((if t = TeXElementType.Section
                          then tag ++ zeroDots (r - low) ++ toString cnt
                          else "*") ++ " " ++ lab) i f g p chOut,
                        if t = TeXElementType.Section then bumpSec counter r
                        else counter) := by
                      cases hOne
                      rfl
                    rw [hx] at hRest hout
                    simp only at hRest hout
                    have hcnt : cnt = countSecRank cfg r
                        (prior ++ [TeXElement.mk t nm lab i f g p ch]) := by
                      have := hinv1 r
                      rw [hlk] at this
                      simpa using this
                    have hchOut : chOut = amGo cfg ch []
                        (some (r + 1)) ((tag ++ zeroDots (r - low) ++ toString cnt) ++ ".") := by
                      refine ih (sizeOf ch) (by omega) ch _ _ [] [] chOut
                        le_rfl ?_ hch'
                      intro s
                      simp [List.lookup, countSecRank]
                    have hRest' : rest' = amGo cfg rest
                        (prior ++ [TeXElement.mk t nm lab i f g p ch]) (some low) tag :=
                      ih (sizeOf rest) (by omega) rest tag (some low) _ _ rest'
                        le_rfl hinv1 hRest
                    rw [hout, hRest']
                    simp only [amOne, hrank, Option.getD_some]
                    have hcntAm : countSecRank cfg r
                        (if t = TeXElementType.Section
                         then prior ++ [TeXElement.mk t nm lab i f g p ch] else prior) = cnt := by
                      by_cases ht : t = TeXElementType.Section
                      · rw [if_pos ht, hcnt]
                      · rw [if_neg ht, hcnt, countSecRank_append]
                        simp [ht]
                    rw [hcntAm]
                    rw [amGo_nil_collapse]
                    rw [hchOut]

end LatexOutline

namespace LatexOutline

/-- C2 (amended): whenever the numbering pass completes without a JS
error, each ranked element's number is the accumulated prefix, the
zero-padding `0.` repeated (rank minus the scope's lowest rank) times,
and a counter equal to the number of `Section`-typed elements of the same
configured rank among the scope elements processed so far (the element
itself included when it is a `Section`); the recursion into a ranked
element's children extends the prefix with the computed number plus a dot
and uses the element's configured rank PLUS ONE as the child scope's
lowest rank — not a fresh minimum over the children's own ranks. -/
theorem addSectionNumber_amended (cfg : StructureConfig) (struct out : List TeXElement)
    (tag? : Option String) (lowest? : Option Nat)
    (h : addSectionNumberE cfg struct tag? lowest? = .ok out) :
    out = secNumberAmended cfg struct (tag?.getD "") lowest? := by
  unfold addSectionNumberE at h
  unfold secNumberAmended
  exact asnAmendedMain cfg (sizeOf struct) struct (tag?.getD "")
    (lowest? <|> (struct.filterMap (fun e => cfg.rank e.name)).min?) [] [] out le_rfl
    (fun r => by simp [List.lookup, countSecRank]) h

/-- The amended C2 theorem at the concrete two-level input `gapTree`:
the run succeeds with the subsection numbered `1.0.1`, and the
declarative restatement agrees. -/
theorem addSectionNumber_amended_witness :
    [TeXElement.mk .Section "chapter" "1 Chap" 0 0 0 "a"
      [TeXElement.mk .Section "subsection" "1.0.1 Sub" 0 1 1 "a" []]] =
    secNumberAmended cfgStd gapTree "" none :=
  addSectionNumber_amended cfgStd gapTree
    [TeXElement.mk .Section "chapter" "1 Chap" 0 0 0 "a"
      [TeXElement.mk .Section "subsection" "1.0.1 Sub" 0 1 1 "a" []]]
    none none (by decide)

end LatexOutline

namespace LatexOutline

def spineOK (cfg : StructureConfig) : List TeXElement → Bool
  | [] => true
  | [a] => treeRankOK cfg a
  | a :: b :: rs => treeRankOK cfg a && pairRankOK cfg b a && spineOK cfg (b :: rs)

def stateOK (cfg : StructureConfig) (st : NSState) : Bool :=
  st.done.all (treeRankOK cfg) && st.pending.all (treeRankOK cfg) && spineOK cfg st.stack

theorem pairRankOK_parent_congr (cfg : StructureConfig) (p p' c : TeXElement)
    (ht : p'.type = p.type) (hn : p'.name = p.name) :
    pairRankOK cfg p' c = pairRankOK cfg p c := by
  simp [pairRankOK, isSecBearing, ht, hn]

theorem pairRankOK_child_congr (cfg : StructureConfig) (p c c' : TeXElement)
    (ht : c'.type = c.type) (hn : c'.name = c.name) :
    pairRankOK cfg p c' = pairRankOK cfg p c := by
  simp [pairRankOK, isSecBearing, ht, hn]

theorem pairsRankOK_append (cfg : StructureConfig) (par : TeXElement)
    (l1 l2 : List TeXElement) :
    pairsRankOK cfg par (l1 ++ l2) =
      (pairsRankOK cfg par l1 && pairsRankOK cfg par l2) := by
  induction l1 with
  | nil => simp [pairsRankOK]
  | cons c cs ihl =>
    simp [pairsRankOK, ihl, Bool.and_assoc]

theorem pairsRankOK_parent_congr (cfg : StructureConfig) (p p' : TeXElement)
    (ht : p'.type = p.type) (hn : p'.name = p.name) :
    ∀ l, pairsRankOK cfg p' l = pairsRankOK cfg p l := by
  intro l
  induction l with
  | nil => rfl
  | cons c cs ihl =>
    simp [pairsRankOK, ihl, pairRankOK_parent_congr cfg p p' c ht hn]

theorem treeRankOK_attach (cfg : StructureConfig) (t c : TeXElement)
    (h1 : treeRankOK cfg t = true) (h2 : treeRankOK cfg c = true)
    (h3 : pairRankOK cfg t c = true) :
    treeRankOK cfg (t.withChildren (t.children ++ [c])) = true := by
  match t with
  | .mk ty n l i f g p ch =>
    simp only [TeXElement.withChildren_mk, TeXElement.children_mk]
    simp only [treeRankOK] at h1 ⊢
    rw [pairsRankOK_parent_congr cfg (.mk ty n l i f g p ch)
      (.mk ty n l i f g p (ch ++ [c])) rfl rfl]
    rw [pairsRankOK_append]
    simp only [pairsRankOK, h1, h2, Bool.true_and, Bool.and_true]
    exact h3

theorem withChildren_type (t : TeXElement) (c : List TeXElement) :
    (t.withChildren c).type = t.type := by
  match t with
  | .mk ty n l i f g p ch => rfl

theorem withChildren_name (t : TeXElement) (c : List TeXElement) :
    (t.withChildren c).name = t.name := by
  match t with
  | .mk ty n l i f g p ch => rfl

theorem spineOK_replaceTop (cfg : StructureConfig) (a a' : TeXElement)
    (rs : List TeXElement) (ht : treeRankOK cfg a' = true)
    (hty : a'.type = a.type) (hnm : a'.name = a.name)
    (h : spineOK cfg (a :: rs) = true) : spineOK cfg (a' :: rs) = true := by
  match rs with
  | [] => simpa [spineOK] using ht
  | b :: rs' =>
    simp only [spineOK, Bool.and_eq_true] at h ⊢
    exact ⟨⟨ht, by rw [pairRankOK_child_congr cfg b a a' hty hnm]; exact h.1.2⟩, h.2⟩

theorem collapseSpine_ok_cons (cfg : StructureConfig) :
    ∀ rs a, spineOK cfg (a :: rs) = true →
      (collapseSpine (a :: rs)).all (treeRankOK cfg) = true := by
  intro rs
  induction rs with
  | nil => intro a h; simpa [collapseSpine, List.all] using h
  | cons b rs' ihr =>
    intro a h
    simp only [spineOK, Bool.and_eq_true] at h
    have hstep : collapseSpine (a :: b :: rs') =
        collapseSpine ((b.withChildren (b.children ++ [a])) :: rs') := by
      simp [collapseSpine, List.foldl]
    rw [hstep]
    have hb : treeRankOK cfg b = true := by
      match rs' with
      | [] => simpa [spineOK] using h.2
      | c :: rs2 => simp only [spineOK, Bool.and_eq_true] at h; exact h.2.1.1
    refine ihr _ ?_
    exact spineOK_replaceTop cfg b _ rs'
      (treeRankOK_attach cfg b a hb h.1.1 h.1.2)
      (withChildren_type b _) (withChildren_name b _) h.2

theorem collapseSpine_ok (cfg : StructureConfig) :
    ∀ st, spineOK cfg st = true → (collapseSpine st).all (treeRankOK cfg) = true := by
  intro st h
  match st with
  | [] => rfl
  | a :: rs => exact collapseSpine_ok_cons cfg rs a h

theorem pairRankOK_of_jsLe_false (cfg : StructureConfig) (p c : TeXElement)
    (h : jsLe (cfg.rank c.name) (cfg.rank p.name) = false) :
    pairRankOK cfg p c = true := by
  simp only [pairRankOK]
  cases hc : cfg.rank c.name with
  | none => simp [hc]
  | some rc =>
    cases hp : cfg.rank p.name with
    | none => simp [hp]
    | some rp =>
      rw [hc, hp] at h
      simp only [jsLe] at h
      simp only [hc, hp]
      have : rp < rc := by
        by_contra hcon
        simp [Nat.le_of_not_lt hcon] at h
      simp [this]

theorem pairRankOK_of_jsGt (cfg : StructureConfig) (p c : TeXElement)
    (h : jsGt (cfg.rank c.name) (cfg.rank p.name) = true) :
    pairRankOK cfg p c = true := by
  simp only [pairRankOK]
  cases hc : cfg.rank c.name with
  | none => rw [hc] at h; simp [jsGt] at h
  | some rc =>
    cases hp : cfg.rank p.name with
    | none => rw [hc, hp] at h; simp [jsGt] at h
    | some rp =>
      rw [hc, hp] at h
      simp only [jsGt, decide_eq_true_eq] at h
      simp [hc, hp, h]

theorem popSpineGo_ok (cfg : StructureConfig) (re : Option Nat) :
    ∀ rest top stk, spineOK cfg (top :: rest) = true →
      popSpineGo cfg re top rest = some stk →
      spineOK cfg stk = true ∧
        ∃ h r', stk = h :: r' ∧ jsLe re (cfg.rank h.name) = false := by
  intro rest
  induction rest with
  | nil =>
    intro top stk hs hp
    simp only [popSpineGo] at hp
    cases hle : jsLe re (cfg.rank top.name) with
    | true => rw [hle] at hp; simp at hp
    | false =>
      rw [hle, if_neg Bool.false_ne_true] at hp
      cases hp
      exact ⟨hs, top, [], rfl, hle⟩
  | cons t rs ihr =>
    intro top stk hs hp
    simp only [popSpineGo] at hp
    cases hle : jsLe re (cfg.rank top.name) with
    | false =>
      rw [hle, if_neg Bool.false_ne_true] at hp
      cases hp
      exact ⟨hs, top, t :: rs, rfl, hle⟩
    | true =>
      rw [hle] at hp
      simp only [if_pos rfl] at hp
      simp only [spineOK, Bool.and_eq_true] at hs
      have hts : treeRankOK cfg t = true := by
        match rs with
        | [] => simpa [spineOK] using hs.2
        | c :: rs' => simp only [spineOK, Bool.and_eq_true] at hs; exact hs.2.1.1
      refine ihr _ stk ?_ hp
      exact spineOK_replaceTop cfg t _ rs
        (treeRankOK_attach cfg t top hts hs.1.1 hs.1.2)
        (withChildren_type t _) (withChildren_name t _) hs.2

end LatexOutline

namespace LatexOutline

theorem nsStep_ok (cfg : StructureConfig) (d pnd stk : List TeXElement)
    (st' : NSState) (e : TeXElement)
    (he : treeRankOK cfg e = true)
    (hd : d.all (treeRankOK cfg) = true)
    (hp : pnd.all (treeRankOK cfg) = true)
    (hs : spineOK cfg stk = true)
    (h : nsStep cfg ⟨d, pnd, stk⟩ e = some st') :
    st'.done.all (treeRankOK cfg) = true ∧
      st'.pending.all (treeRankOK cfg) = true ∧
      spineOK cfg st'.stack = true := by
  simp only [nsStep] at h
  split at h
  · split at h
    · cases h
      refine ⟨?_, rfl, hs⟩
      simp [List.all_append, hd, hp, he]
    · cases h
      refine ⟨hd, ?_, hs⟩
      simp [List.all_append, hp, he]
  · split at h
    · cases h
      refine ⟨by simp [List.all_append, hd, hp], rfl, ?_⟩
      simpa [spineOK] using he
    · next top rest =>
      split at h
      · cases h
        refine ⟨?_, rfl, by simpa [spineOK] using he⟩
        simp only [List.all_append, hd, hp, Bool.and_true, Bool.true_and]
        exact collapseSpine_ok cfg (top :: rest) hs
      · split at h
        · next hgt =>
          cases h
          refine ⟨hd, hp, ?_⟩
          simp only [spineOK, Bool.and_eq_true]
          exact ⟨⟨he, pairRankOK_of_jsGt cfg top e hgt⟩, hs⟩
        · simp only [popSpine, Option.map_eq_some'] at h
          obtain ⟨stk2, hpop, hst'⟩ := h
          obtain ⟨hsOK, hh, r', hstk2, hle⟩ := popSpineGo_ok cfg _ rest top stk2 hs hpop
          subst hst'
          refine ⟨hd, hp, ?_⟩
          subst hstk2
          simp only [spineOK, Bool.and_eq_true]
          exact ⟨⟨he, pairRankOK_of_jsLe_false cfg hh e hle⟩, hsOK⟩

theorem nsFold_ok (cfg : StructureConfig) :
    ∀ (l : List TeXElement) (d pnd stk : List TeXElement) (stF : NSState),
      l.all (treeRankOK cfg) = true →
      d.all (treeRankOK cfg) = true →
      pnd.all (treeRankOK cfg) = true →
      spineOK cfg stk = true →
      List.foldlM (nsStep cfg) ⟨d, pnd, stk⟩ l = some stF →
      stF.done.all (treeRankOK cfg) = true ∧
        stF.pending.all (treeRankOK cfg) = true ∧
        spineOK cfg stF.stack = true := by
  intro l
  induction l with
  | nil =>
    intro d pnd stk stF _ hd hp hs h
    cases h
    exact ⟨hd, hp, hs⟩
  | cons e rest ihl =>
    intro d pnd stk stF hl hd hp hs h
    simp only [List.all_cons, Bool.and_eq_true] at hl
    simp only [List.foldlM] at h
    cases hstep : nsStep cfg ⟨d, pnd, stk⟩ e with
    | none => rw [hstep] at h; simp at h
    | some st1 =>
      rw [hstep] at h
      simp only [Option.bind_eq_bind, Option.some_bind] at h
      obtain ⟨h1, h2, h3⟩ := nsStep_ok cfg d pnd stk st1 e hl.1 hd hp hs hstep
      exact ihl st1.done st1.pending st1.stack stF hl.2 h1 h2 h3 (by simpa using h)

end LatexOutline

namespace LatexOutline

/-- A three-section flat input (chapter, then subsection, then section)
whose nesting exercises the push, pop and attach paths of `nestSection`. -/
def c4In : List TeXElement :=
  [.mk .Section "chapter" "A" 0 0 0 "f" [],
   .mk .Section "subsection" "B" 1 1 1 "f" [],
   .mk .Section "section" "C" 2 2 2 "f" []]

/-- C4: after the section-nesting pass, every parent/direct-child pair in
every output tree in which both elements are section-bearing with
configured ranks has the child's rank strictly greater than the parent's
— provided the input trees already satisfied the property for the
parent/child pairs the pass leaves untouched.  The stack the pass
maintains is strictly increasing in configured rank from outermost to
innermost wherever ranks are configured (`spineOK` in the proof), and
each attach performed by the pop loop or the final collapse creates only
rank-increasing pairs. -/
theorem nestSection_rank_invariant (cfg : StructureConfig)
    (struct out : List TeXElement)
    (hpre : struct.all (treeRankOK cfg) = true)
    (h : nestSectionO struct cfg = some out) :
    out.all (treeRankOK cfg) = true := by
  simp only [nestSectionO, Option.map_eq_some'] at h
  obtain ⟨stF, hfold, hout⟩ := h
  obtain ⟨h1, h2, h3⟩ := nsFold_ok cfg struct [] [] [] stF hpre rfl rfl rfl hfold
  subst hout
  simp [List.all_append, h1, h2, collapseSpine_ok cfg stF.stack h3]

/-- The C4 theorem applied to the concrete input `c4In`: the pass nests
both later sections under the chapter and every resulting parent/child
pair is rank-increasing. -/
theorem nestSection_rank_invariant_witness :
    c4In.all (treeRankOK cfgStd) = true ∧
    nestSectionO c4In cfgStd = some
      [.mk .Section "chapter" "A" 0 0 0 "f"
        [.mk .Section "subsection" "B" 1 1 1 "f" [],
         .mk .Section "section" "C" 2 2 2 "f" []]] ∧
    ([TeXElement.mk .Section "chapter" "A" 0 0 0 "f"
        [.mk .Section "subsection" "B" 1 1 1 "f" [],
         .mk .Section "section" "C" 2 2 2 "f" []]]).all (treeRankOK cfgStd) = true :=
  ⟨by decide, by decide,
    nestSection_rank_invariant cfgStd c4In
      [TeXElement.mk .Section "chapter" "A" 0 0 0 "f"
        [.mk .Section "subsection" "B" 1 1 1 "f" [],
         .mk .Section "section" "C" 2 2 2 "f" []]]
      (by decide) (by decide)⟩

end LatexOutline

namespace LatexOutline

/-- Flattening of an optional current element (the `cur` accumulator of
the `nestNonSection` loop). -/
def optFlat : Option TeXElement → List ElemCore
  | none => []
  | some c => flattenE c

theorem optFlat_toList (cur : Option TeXElement) :
    flattenL cur.toList = optFlat cur := by
  cases cur <;> simp [optFlat, flattenL]

theorem flattenE_attachOne (t a : TeXElement) :
    flattenE (t.withChildren (t.children ++ [a])) = flattenE t ++ flattenE a := by
  match t with
  | .mk ty n l i f g p ch =>
    simp [flattenL_append, flattenL]

theorem nns_flatten_main (n : Nat) :
    (∀ e : TeXElement, sizeOf e ≤ n → flattenE (nnsElem e) = flattenE e) ∧
    (∀ l : List TeXElement, sizeOf l ≤ n → ∀ done cur,
      flattenL (nnsGo l done cur) = flattenL done ++ optFlat cur ++ flattenL l) := by
  induction n using Nat.strong_induction_on with
  | _ n ih =>
    constructor
    · intro e hle
      match e with
      | .mk t nm lab i f g p ch =>
        simp only [nnsElem, flattenE_mk]
        cases hE : ch.isEmpty with
        | true =>
          simp
        | false =>
          have hch : sizeOf ch < sizeOf (TeXElement.mk t nm lab i f g p ch) := by
            simp <;> omega
          have hn : sizeOf ch ≤ n - 1 := by omega
          have := (ih (n - 1) (by omega)).2 ch hn [] none
          simp [this, optFlat]
    · intro l hle done cur
      match l with
      | [] =>
        simp only [nnsGo, flattenL_append, optFlat_toList]
        simp
      | e :: rest =>
        have he : sizeOf e < sizeOf (e :: rest) := by simp <;> omega
        have hrest : sizeOf rest < sizeOf (e :: rest) := by simp <;> omega
        have hA := (ih (n - 1) (by omega)).1 e (by omega)
        have hB := (ih (n - 1) (by omega)).2 rest (by omega)
        simp only [nnsGo]
        cases hsec : (decide (e.type = TeXElementType.Section) ||
            decide (e.type = TeXElementType.SectionAst)) with
        | true =>
          rw [if_pos (by
            rcases Bool.or_eq_true_iff.mp hsec with h1 | h1
            · exact Or.inl (of_decide_eq_true h1)
            · exact Or.inr (of_decide_eq_true h1))]
          rw [hB _ _]
          simp [flattenL_append, optFlat, optFlat_toList, hA, List.append_assoc]
        | false =>
          rw [if_neg (by
            intro hcon
            rcases hcon with h1 | h1
            · rw [h1] at hsec; simp at hsec
            · rw [h1] at hsec; simp at hsec)]
          cases cur with
          | none =>
            rw [hB _ _]
            simp [flattenL_append, optFlat, hA]
          | some c =>
            rw [hB _ _]
            simp [optFlat, flattenE_attachOne, hA, List.append_assoc]

end LatexOutline

namespace LatexOutline

/-- Depth-first content of a `nestSection` fold state: the done prefix,
the open spine re-attached, then the pending tail. -/
def stFlat (st : NSState) : List ElemCore :=
  flattenL st.done ++ flattenL (collapseSpine st.stack) ++ flattenL st.pending

theorem collapseFlat_cons :
    ∀ (rs : List TeXElement) (a : TeXElement),
      flattenL (collapseSpine (a :: rs)) =
        flattenL (collapseSpine rs) ++ flattenE a := by
  intro rs
  induction rs with
  | nil => intro a; simp [collapseSpine, flattenL]
  | cons b rs' ihr =>
    intro a
    have hstep : collapseSpine (a :: b :: rs') =
        collapseSpine ((b.withChildren (b.children ++ [a])) :: rs') := by
      simp [collapseSpine, List.foldl]
    rw [hstep, ihr, ihr, flattenE_attachOne]
    simp [List.append_assoc]

theorem popSpineGo_flat (cfg : StructureConfig) (re : Option Nat) :
    ∀ rest top stk, popSpineGo cfg re top rest = some stk →
      flattenL (collapseSpine stk) = flattenL (collapseSpine (top :: rest)) := by
  intro rest
  induction rest with
  | nil =>
    intro top stk hp
    simp only [popSpineGo] at hp
    cases hle : jsLe re (cfg.rank top.name) with
    | true => rw [hle] at hp; simp at hp
    | false => rw [hle, if_neg Bool.false_ne_true] at hp; cases hp; rfl
  | cons t rs ihr =>
    intro top stk hp
    simp only [popSpineGo] at hp
    cases hle : jsLe re (cfg.rank top.name) with
    | false => rw [hle, if_neg Bool.false_ne_true] at hp; cases hp; rfl
    | true =>
      rw [hle, if_pos rfl] at hp
      rw [ihr _ stk hp]
      rw [collapseFlat_cons, collapseFlat_cons, collapseFlat_cons, flattenE_attachOne]
      simp [List.append_assoc]

theorem nsStep_flat_perm (cfg : StructureConfig) (d pnd stk : List TeXElement)
    (st' : NSState) (e : TeXElement)
    (h : nsStep cfg ⟨d, pnd, stk⟩ e = some st') :
    (stFlat st').Perm (stFlat ⟨d, pnd, stk⟩ ++ flattenE e) := by
  simp only [nsStep] at h
  split at h
  · split at h
    · next hEmp =>
      cases h
      have hstk : stk = [] := List.isEmpty_iff.mp hEmp
      subst hstk
      simp [stFlat, flattenL_append, collapseSpine, List.append_assoc]
    · cases h
      simp [stFlat, flattenL_append, List.append_assoc]
  · split at h
    · cases h
      simp [stFlat, flattenL_append, collapseSpine, flattenL, List.append_assoc]
    · next top rest =>
      split at h
      · cases h
        simp [stFlat, flattenL_append, collapseSpine, flattenL, List.append_assoc]
      · split at h
        · cases h
          simp only [stFlat, collapseFlat_cons]
          have hperm : (flattenE e ++ flattenL pnd).Perm
              (flattenL pnd ++ flattenE e) := List.perm_append_comm
          have := List.Perm.append_left
            (flattenL d ++ flattenL (collapseSpine (top :: rest))) hperm
          simpa [List.append_assoc, collapseFlat_cons] using this
        · simp only [popSpine, Option.map_eq_some'] at h
          obtain ⟨stk2, hpop, hst'⟩ := h
          subst hst'
          simp only [stFlat, collapseFlat_cons, popSpineGo_flat cfg _ rest top stk2 hpop]
          have hperm : (flattenE e ++ flattenL pnd).Perm
              (flattenL pnd ++ flattenE e) := List.perm_append_comm
          have := List.Perm.append_left
            (flattenL d ++ flattenL (collapseSpine (top :: rest))) hperm
          simpa [List.append_assoc, collapseFlat_cons] using this

theorem nsFold_perm (cfg : StructureConfig) :
    ∀ (l : List TeXElement) (st stF : NSState),
      List.foldlM (nsStep cfg) st l = some stF →
      (stFlat stF).Perm (stFlat st ++ flattenL l) := by
  intro l
  induction l with
  | nil =>
    intro st stF h
    cases h
    simp
  | cons e rest ihl =>
    intro st stF h
    simp only [List.foldlM] at h
    cases hstep : nsStep cfg st e with
    | none => rw [hstep] at h; simp at h
    | some st1 =>
      rw [hstep] at h
      simp only [Option.bind_eq_bind, Option.some_bind] at h
      have h1 := ihl st1 stF (by simpa using h)
      have h2 : (stFlat st1).Perm (stFlat st ++ flattenE e) := by
        obtain ⟨d, pnd, stk⟩ := st
        exact nsStep_flat_perm cfg d pnd stk st1 e hstep
      refine h1.trans ?_
      have := List.Perm.append_right (flattenL rest) h2
      simpa [List.append_assoc] using this

end LatexOutline

namespace LatexOutline

theorem nsStep_stack_exact (cfg : StructureConfig) (d stk : List TeXElement)
    (st' : NSState) (e : TeXElement) (he : isStackType e = true)
    (h : nsStep cfg ⟨d, [], stk⟩ e = some st') :
    st'.pending = [] ∧ stFlat st' = stFlat ⟨d, [], stk⟩ ++ flattenE e := by
  simp only [nsStep, he, Bool.not_true] at h
  rw [if_neg Bool.false_ne_true] at h
  split at h
  · cases h
    refine ⟨rfl, ?_⟩
    simp [stFlat, flattenL_append, collapseSpine, flattenL]
  · next top rest =>
    split at h
    · cases h
      refine ⟨rfl, ?_⟩
      simp [stFlat, flattenL_append, collapseSpine, flattenL, collapseFlat_cons,
        List.append_assoc]
    · split at h
      · cases h
        refine ⟨rfl, ?_⟩
        simp [stFlat, collapseFlat_cons, List.append_assoc]
      · simp only [popSpine, Option.map_eq_some'] at h
        obtain ⟨stk2, hpop, hst'⟩ := h
        subst hst'
        refine ⟨rfl, ?_⟩
        simp [stFlat, collapseFlat_cons, popSpineGo_flat cfg _ rest top stk2 hpop,
          List.append_assoc]

theorem nsStep_nonstack_empty (cfg : StructureConfig) (d : List TeXElement)
    (e : TeXElement) (he : isStackType e = false) :
    nsStep cfg ⟨d, [], []⟩ e = some ⟨d ++ [] ++ [e], [], []⟩ := by
  simp [nsStep, he]

theorem nsFoldA (cfg : StructureConfig) :
    ∀ (a : List TeXElement) (d : List TeXElement) (stF : NSState),
      a.all (fun e => !isStackType e) = true →
      List.foldlM (nsStep cfg) ⟨d, [], []⟩ a = some stF →
      stF.stack = [] ∧ stF.pending = [] ∧
        stFlat stF = stFlat ⟨d, [], []⟩ ++ flattenL a := by
  intro a
  induction a with
  | nil =>
    intro d stF _ h
    cases h
    exact ⟨rfl, rfl, by simp⟩
  | cons e rest ihl =>
    intro d stF ha h
    simp only [List.all_cons, Bool.and_eq_true, Bool.not_eq_true'] at ha
    simp only [List.foldlM, nsStep_nonstack_empty cfg d e ha.1,
      Option.bind_eq_bind, Option.some_bind] at h
    obtain ⟨h1, h2, h3⟩ := ihl (d ++ [] ++ [e]) stF ha.2 (by simpa using h)
    refine ⟨h1, h2, ?_⟩
    rw [h3]
    simp [stFlat, flattenL_append, collapseSpine, List.append_assoc]

theorem nsFoldB (cfg : StructureConfig) :
    ∀ (b : List TeXElement) (st stF : NSState),
      b.all isStackType = true → st.pending = [] →
      List.foldlM (nsStep cfg) st b = some stF →
      stF.pending = [] ∧ stFlat stF = stFlat st ++ flattenL b := by
  intro b
  induction b with
  | nil =>
    intro st stF _ _ h
    cases h
    exact ⟨by assumption, by simp⟩
  | cons e rest ihl =>
    intro st stF hb hpnd h
    simp only [List.all_cons, Bool.and_eq_true] at hb
    simp only [List.foldlM] at h
    cases hstep : nsStep cfg st e with
    | none => rw [hstep] at h; simp at h
    | some st1 =>
      rw [hstep] at h
      simp only [Option.bind_eq_bind, Option.some_bind] at h
      obtain ⟨d, pnd, stk⟩ := st
      simp only at hpnd
      subst hpnd
      obtain ⟨h1, h2⟩ := nsStep_stack_exact cfg d stk st1 e hb.1 hstep
      obtain ⟨h3, h4⟩ := ihl st1 stF hb.2 h1 (by simpa using h)
      refine ⟨h3, ?_⟩
      rw [h4, h2]
      simp [List.append_assoc]

end LatexOutline

namespace LatexOutline

/-- C10 (amended): the non-section nesting pass preserves the depth-first
element sequence exactly; the section nesting pass preserves the multiset
of elements (every input element appears exactly once in the output, none
duplicated or dropped), but only up to permutation of the depth-first
order in general — and it preserves the order exactly whenever every
non-stack element of the sibling list precedes every stack-handled
(`Section`/`SectionAst`/`SubFile`) element, since the reordering arises
only when a non-stack element is pushed to `elements` while a section is
still open and a later section is then nested into the earlier one. -/
theorem nesting_preserves_elements (cfg : StructureConfig) :
    (∀ s : List TeXElement, flattenL (nestNonSection s) = flattenL s) ∧
    (∀ s out : List TeXElement, nestSectionO s cfg = some out →
      (flattenL out).Perm (flattenL s)) ∧
    (∀ a b out : List TeXElement,
      a.all (fun e => !(isStackType e)) = true → b.all isStackType = true →
      nestSectionO (a ++ b) cfg = some out → flattenL out = flattenL (a ++ b)) := by
  refine ⟨?_, ?_, ?_⟩
  · intro s
    have h := (nns_flatten_main (sizeOf s)).2 s le_rfl [] none
    simpa [nestNonSection, optFlat] using h
  · intro s out h
    simp only [nestSectionO, Option.map_eq_some'] at h
    obtain ⟨stF, hfold, hout⟩ := h
    subst hout
    have h1 := nsFold_perm cfg s ⟨[], [], []⟩ stF hfold
    have h2 : flattenL (stF.done ++ collapseSpine stF.stack ++ stF.pending) =
        stFlat stF := by
      simp [stFlat, flattenL_append, List.append_assoc]
    rw [h2]
    simpa [stFlat, collapseSpine] using h1
  · intro a b out ha hb h
    simp only [nestSectionO, Option.map_eq_some'] at h
    obtain ⟨stF, hfold, hout⟩ := h
    subst hout
    rw [List.foldlM_append] at hfold
    cases hA : List.foldlM (nsStep cfg) ⟨[], [], []⟩ a with
    | none =>
      rw [hA] at hfold
      exact absurd hfold (by simp)
    | some stMid =>
      rw [hA] at hfold
      simp only [Option.bind_eq_bind, Option.some_bind] at hfold
      obtain ⟨hs1, hp1, hf1⟩ := nsFoldA cfg a [] stMid ha hA
      obtain ⟨hp2, hf2⟩ := nsFoldB cfg b stMid stF hb hp1 hfold
      have h2 : flattenL (stF.done ++ collapseSpine stF.stack ++ stF.pending) =
          stFlat stF := by
        simp [stFlat, flattenL_append, List.append_assoc]
      rw [h2, hf2, hf1]
      simp [stFlat, collapseSpine, flattenL_append]

/-- The three parts of the amended C10 theorem at concrete inputs: the
non-section pass preserves the flattening of `c10Input`; the section pass
output on `c10Input` is a permutation of the input's flattening; and with
the command moved before both sections, the order is preserved exactly. -/
theorem nesting_preserves_elements_witness :
    flattenL (nestNonSection c10Input) = flattenL c10Input ∧
    (flattenL [TeXElement.mk .Section "chapter" "S" 0 0 0 "a"
        [.mk .Section "section" "T" 0 2 2 "a" []],
      .mk .Command "foo" "#foo" 0 1 1 "a" []]).Perm (flattenL c10Input) ∧
    flattenL [TeXElement.mk .Command "foo" "#foo" 0 1 1 "a" [],
      .mk .Section "chapter" "S" 0 0 0 "a"
        [.mk .Section "section" "T" 0 2 2 "a" []]] =
      flattenL ([TeXElement.mk .Command "foo" "#foo" 0 1 1 "a" []] ++
        [.mk .Section "chapter" "S" 0 0 0 "a" [],
         .mk .Section "section" "T" 0 2 2 "a" []]) :=
  ⟨(nesting_preserves_elements cfgStd).1 c10Input,
   (nesting_preserves_elements cfgStd).2.1 c10Input
     [TeXElement.mk .Section "chapter" "S" 0 0 0 "a"
        [.mk .Section "section" "T" 0 2 2 "a" []],
      .mk .Command "foo" "#foo" 0 1 1 "a" []] (by decide),
   (nesting_preserves_elements cfgStd).2.2
     [TeXElement.mk .Command "foo" "#foo" 0 1 1 "a" []]
     [TeXElement.mk .Section "chapter" "S" 0 0 0 "a" [],
      .mk .Section "section" "T" 0 2 2 "a" []]
     [TeXElement.mk .Command "foo" "#foo" 0 1 1 "a" [],
      .mk .Section "chapter" "S" 0 0 0 "a"
        [.mk .Section "section" "T" 0 2 2 "a" []]]
     (by decide) (by decide) (by decide)⟩

end LatexOutline
